import Mathlib

/-!
# cpprest/json_converter.hpp

A shallow embedding of `cpprest/json_converter.hpp`: the type-directed
`value_converter` strategies, `field_info`, and `mapper`.

The value tree `web::json::value` belongs to the C++ REST SDK
(`<cpprest/json.h>`); the part of its interface that the header calls is
modelled in the first section.  A C++ function that writes its result through a
reference parameter and may throw is a function returning an `Outcome`: the
final content of the referenced target, together with the exception when one
escaped.
-/

namespace web.json

/-! ## The value tree of `<cpprest/json.h>`

The header includes `<cpprest/json.h>` of the C++ REST SDK, which is not part
of the repository.  The definitions of this section model the part of
`web::json::value` and `web::json::number` that the header calls: the
constructors, `is_null`, the typed reads `as_bool`, `as_number`, `as_string`,
`as_array` with their `json_exception`, the integer reads of a number, and
member and element access. -/

/-- Modelled from the spec: the typed-access failure of the value tree,
`web::json::json_exception` of `<cpprest/json.h>` with its message; the second
exception that can escape the header is `std::out_of_range`, thrown by
`std::unordered_map::at`. -/
inductive Exn where
  | json_exception (what : String)
  | out_of_range
  deriving DecidableEq, Repr

/-! ### Fixed-width integers -/

/-- Two's complement reading of the low `w` bits of `i` (`static_cast` to a
signed integer of width `w`). -/
def wrap_signed (w : Nat) (i : Int) : Int :=
  (i + 2 ^ (w - 1)) % 2 ^ w - 2 ^ (w - 1)

/-- The low `w` bits of `i` (`static_cast` to an unsigned integer of width `w`). -/
def wrap_unsigned (w : Nat) (i : Int) : Int :=
  i % 2 ^ w

/-- Values of `int32_t`. -/
abbrev int32_t := { i : Int // -2 ^ 31 ≤ i ∧ i < 2 ^ 31 }
/-- Values of `uint32_t`. -/
abbrev uint32_t := { i : Int // 0 ≤ i ∧ i < 2 ^ 32 }
/-- Values of `int64_t`. -/
abbrev int64_t := { i : Int // -2 ^ 63 ≤ i ∧ i < 2 ^ 63 }
/-- Values of `uint64_t`. -/
abbrev uint64_t := { i : Int // 0 ≤ i ∧ i < 2 ^ 64 }

/-- `static_cast<int32_t>` of a 64-bit integer. -/
def cast_int32 (i : Int) : int32_t :=
  ⟨wrap_signed 32 i, by unfold wrap_signed; omega⟩

/-- `static_cast<uint32_t>` of a 64-bit integer. -/
def cast_uint32 (i : Int) : uint32_t :=
  ⟨wrap_unsigned 32 i, by unfold wrap_unsigned; omega⟩

/-- `static_cast<int64_t>` of a 64-bit integer. -/
def cast_int64 (i : Int) : int64_t :=
  ⟨wrap_signed 64 i, by unfold wrap_signed; omega⟩

/-- `static_cast<uint64_t>` of a 64-bit integer. -/
def cast_uint64 (i : Int) : uint64_t :=
  ⟨wrap_unsigned 64 i, by unfold wrap_unsigned; omega⟩

/-- Truncation of a `double` toward zero, the value of a floating-to-integer
`static_cast` whenever the truncated value fits the destination. -/
def truncate_double (d : Float) : Int :=
  if d < 0 then -Int.ofNat (Float.toUInt64 (-d)).toNat
  else Int.ofNat (Float.toUInt64 d).toNat

/-! ### `web::json::number` and `web::json::value` -/

/-- Modelled from the spec: `web::json::number` of `<cpprest/json.h>`, the
number of a `Number` node in its integer and floating forms: a tagged union of
`int64_t m_intval`, `uint64_t m_uintval` and `double m_value`. -/
inductive number where
  | signed_type (m_intval : Int)
  | unsigned_type (m_uintval : Int)
  | double_type (m_value : Float)

namespace number

/-- Modelled from the spec: the constructors `number(int)` and
`number(int64_t)` of `<cpprest/json.h>`: the tag is `signed_type` for a negative
value and `unsigned_type` otherwise. -/
def of_signed (v : Int) : number :=
  if v < 0 then signed_type v else unsigned_type v

/-- Modelled from the spec: the constructors `number(unsigned)` and
`number(uint64_t)` of `<cpprest/json.h>`. -/
def of_unsigned (v : Int) : number :=
  unsigned_type v

/-- Modelled from the spec: reading the union member `int64_t m_intval` of a
`web::json::number` whose integral member holds `m`. -/
def as_intval (m : Int) : Int :=
  wrap_signed 64 m

/-- Modelled from the spec: `number::to_int32` of `<cpprest/json.h>`, the
narrowing read `static_cast<int32_t>` of the stored number. -/
def to_int32 : number → int32_t
  | double_type d => cast_int32 (truncate_double d)
  | signed_type i => cast_int32 (as_intval i)
  | unsigned_type u => cast_int32 (as_intval u)

/-- Modelled from the spec: `number::to_uint32` of `<cpprest/json.h>`, the
narrowing read `static_cast<uint32_t>` of the stored number. -/
def to_uint32 : number → uint32_t
  | double_type d => cast_uint32 (truncate_double d)
  | signed_type i => cast_uint32 (as_intval i)
  | unsigned_type u => cast_uint32 (as_intval u)

/-- Modelled from the spec: `number::to_int64` of `<cpprest/json.h>`, the read
`static_cast<int64_t>` of the stored number. -/
def to_int64 : number → int64_t
  | double_type d => cast_int64 (truncate_double d)
  | signed_type i => cast_int64 (as_intval i)
  | unsigned_type u => cast_int64 (as_intval u)

/-- Modelled from the spec: `number::to_uint64` of `<cpprest/json.h>`, the read
`static_cast<uint64_t>` of the stored number. -/
def to_uint64 : number → uint64_t
  | double_type d => cast_uint64 (truncate_double d)
  | signed_type i => cast_uint64 (as_intval i)
  | unsigned_type u => cast_uint64 (as_intval u)

end number

/-- Modelled from the spec: `utility::string_t` of the C++ REST SDK, the string
type of keys and string nodes (`std::string`). -/
abbrev string_t := String

/-- Modelled from the spec: the value tree `web::json::value` of
`<cpprest/json.h>`, one of null, boolean, number, string, array and object.  An
object keeps its members as a vector of key/value pairs. -/
inductive value where
  | Null
  | Boolean (b : Bool)
  | Number (n : number)
  | String (s : string_t)
  | Array (elements : List value)
  | Object (members : List (string_t × value))

namespace value

instance : Inhabited value := ⟨Null⟩

/-- Modelled from the spec: the constructor `value::null()` of `<cpprest/json.h>`. -/
def null : value := Null

/-- Modelled from the spec: `value::is_null` of `<cpprest/json.h>`. -/
def is_null : value → Bool
  | Null => true
  | _ => false

/-- Modelled from the spec: the typed read `value::as_number` of
`<cpprest/json.h>`, which throws `json_exception` on a node that is not a
number. -/
def as_number : value → Except Exn number
  | Number n => .ok n
  | _ => .error (.json_exception "not a number")

/-- Modelled from the spec: the typed read `value::as_bool` of
`<cpprest/json.h>`, which throws `json_exception` on a node that is not a
boolean. -/
def as_bool : value → Except Exn Bool
  | Boolean b => .ok b
  | _ => .error (.json_exception "not a boolean")

/-- Modelled from the spec: the typed read `value::as_string` of
`<cpprest/json.h>`, which throws `json_exception` on a node that is not a
string. -/
def as_string : value → Except Exn string_t
  | String s => .ok s
  | _ => .error (.json_exception "not a string")

/-- Modelled from the spec: the typed read `value::as_array` of
`<cpprest/json.h>`, which throws `json_exception` on a node that is not an
array. -/
def as_array : value → Except Exn (List value)
  | Array es => .ok es
  | _ => .error (.json_exception "not an array")

/-- Modelled from the spec: the constructor `value::array(size)` of
`<cpprest/json.h>`: an array of `size` null values. -/
def array (size : Nat) : value :=
  Array (List.replicate size Null)

/-- Modelled from the spec: the constructor `value::object()` of
`<cpprest/json.h>`: the empty object. -/
def object : value :=
  Object []

/-- Modelled from the spec: `value::size` of `<cpprest/json.h>`: the number of
elements of an array or members of an object, and `0` for every other kind. -/
def size : value → Nat
  | Array es => es.length
  | Object ms => ms.length
  | _ => 0

/-- Modelled from the spec: `value::value_type` of `<cpprest/json.h>`, the kind
of a node. -/
inductive value_type where
  | Number
  | Boolean
  | String
  | Object
  | Array
  | Null
  deriving DecidableEq, Repr

/-- Modelled from the spec: `value::type` of `<cpprest/json.h>`. -/
def type : value → value_type
  | Null => .Null
  | Boolean _ => .Boolean
  | Number _ => .Number
  | String _ => .String
  | Array _ => .Array
  | Object _ => .Object

/-- The comparison `std::lexicographical_compare` on the characters of two
strings. -/
def chars_less : List Char → List Char → Bool
  | _, [] => false
  | [], _ :: _ => true
  | a :: as, b :: bs =>
      if a < b then true else if b < a then false else chars_less as bs

/-- The comparison `operator<` of `std::basic_string`, the order in which an
object keeps its members. -/
def key_less (a b : string_t) : Bool :=
  chars_less a.data b.data

/-- Modelled from the spec: assignment to a member of an object, the search of
`object::operator[]` of `<cpprest/json.h>` followed by its insertion or
assignment: the members are kept sorted by key, the position is the first
member whose key is not less than `key`; a member with that key is assigned,
otherwise a new member is inserted at the position. -/
def set_member : List (string_t × value) → string_t → value → List (string_t × value)
  | [], key, v => [(key, v)]
  | (k, x) :: rest, key, v =>
      if key_less k key then (k, x) :: set_member rest key v
      else if key ≠ k then (key, v) :: (k, x) :: rest
      else (k, v) :: rest

/-- Modelled from the spec: member lookup by exact key, `object::find` of
`<cpprest/json.h>`: the member stored under `key`, when there is one. -/
def find_member : List (string_t × value) → string_t → Option value
  | [], _ => none
  | (k, x) :: rest, key => if k = key then some x else find_member rest key

/-- Modelled from the spec: `value::has_field` of `<cpprest/json.h>`: false for
every node that is not an object. -/
def has_field : value → string_t → Bool
  | Object ms, key => (find_member ms key).isSome
  | _, _ => false

/-- Modelled from the spec: `value::at(key)` of `<cpprest/json.h>`, which is
`as_object().at(key)`. -/
def at_key : value → string_t → Except Exn value
  | Object ms, key =>
      match find_member ms key with
      | some x => .ok x
      | none => .error (.json_exception "Key not found")
  | _, _ => .error (.json_exception "not an object")

/-- Modelled from the spec: indexed field write, the statement `json[key] = v`
(`value::operator[](key)` of `<cpprest/json.h>` followed by assignment): a null
node first becomes an empty object. -/
def assign_key : value → string_t → value → Except Exn value
  | Null, key, v => .ok (Object (set_member [] key v))
  | Object ms, key, v => .ok (Object (set_member ms key v))
  | _, _, _ => .error (.json_exception "not an object")

/-- Modelled from the spec: indexed element write, the statement
`json[index] = v` (`value::operator[](size_t)` of `<cpprest/json.h>` followed by
assignment): a null node first becomes an empty array, and an array shorter
than `index + 1` is first resized with null values. -/
def assign_index : value → Nat → value → Except Exn value
  | Null, index, v => .ok (Array ((List.replicate (index + 1) Null).set index v))
  | Array es, index, v =>
      .ok (Array ((es ++ List.replicate (index + 1 - es.length) Null).set index v))
  | _, _, _ => .error (.json_exception "not an array")

end value

/-! ## Outcomes of a call that writes through a reference -/

/-- The result of a call `f(json, target)` that writes through `target`:
`done t` when it returns with `target == t`, `raised e t` when the exception `e`
escapes and `target == t` at that point. -/
inductive Outcome (α : Type) where
  | done (target : α)
  | raised (e : Exn) (target : α)
  deriving DecidableEq, Repr

namespace Outcome

/-- The content of the target when the call is left. -/
def target {α : Type} : Outcome α → α
  | done t => t
  | raised _ t => t

/-- Whether the call returned normally. -/
def succeeded {α : Type} : Outcome α → Bool
  | done _ => true
  | raised _ _ => false

end Outcome

namespace utility

/-- The class template `value_converter<T>`: the pair of static functions
`to_json` and `from_json` that the specialisation for `T` provides.
`default_init` is the object that `new (buf) T` creates in a buffer that was
just declared, the temporary that the container, optional and mapper
strategies fill before moving it into place.  `reinit previous` is the object
that `new (buf) T` creates in a buffer that holds `previous`, the element an
earlier iteration converted there: default initialisation runs the default
constructor of a class type and initialises nothing of a scalar or enum type,
which keeps `previous`. -/
structure value_converter (T : Type) where
  to_json : T → Except Exn value
  from_json : value → T → Outcome T
  default_init : T
  reinit : T → T

/-- `convert(T&& val)`. -/
def convert {T : Type} (c : value_converter T) (val : T) : Except Exn value :=
  c.to_json val

/-- `convert(const web::json::value& json, T& value)`. -/
def convert_from {T : Type} (c : value_converter T) (json : value) (v : T) : Outcome T :=
  c.from_json json v

/-- The body `value = <typed read of json>` of a `parse` overload: the target
is assigned when the read returns and is untouched when it throws. -/
def parse {T : Type} (read : value → Except Exn T) (json : value) (v : T) : Outcome T :=
  match read json with
  | .ok x => .done x
  | .error e => .raised e v

/-- `value_converter<bool>`.  Default initialisation leaves a scalar
indeterminate; `indeterminate` stands for the content of such storage. -/
def bool_converter (indeterminate : Bool) : value_converter Bool where
  to_json v := .ok (value.Boolean v)
  from_json json v := parse value.as_bool json v
  default_init := indeterminate
  reinit previous := previous

/-- `value_converter<int32_t>`; `to_json` is `web::json::value(int32_t)` and
`parse` is `json.as_number().to_int32()`. -/
def int32_converter (indeterminate : int32_t) : value_converter int32_t where
  to_json v := .ok (value.Number (number.of_signed v.val))
  from_json json v := parse (fun j => j.as_number.map number.to_int32) json v
  default_init := indeterminate
  reinit previous := previous

/-- `value_converter<uint32_t>`; `to_json` is `web::json::value(uint32_t)` and
`parse` is `json.as_number().to_uint32()`. -/
def uint32_converter (indeterminate : uint32_t) : value_converter uint32_t where
  to_json v := .ok (value.Number (number.of_unsigned v.val))
  from_json json v := parse (fun j => j.as_number.map number.to_uint32) json v
  default_init := indeterminate
  reinit previous := previous

/-- `value_converter<int64_t>`; `to_json` is `web::json::value(int64_t)` and
`parse` is `json.as_number().to_int64()`. -/
def int64_converter (indeterminate : int64_t) : value_converter int64_t where
  to_json v := .ok (value.Number (number.of_signed v.val))
  from_json json v := parse (fun j => j.as_number.map number.to_int64) json v
  default_init := indeterminate
  reinit previous := previous

/-- `value_converter<uint64_t>`; `to_json` is `web::json::value(uint64_t)` and
`parse` is `json.as_number().to_uint64()`. -/
def uint64_converter (indeterminate : uint64_t) : value_converter uint64_t where
  to_json v := .ok (value.Number (number.of_unsigned v.val))
  from_json json v := parse (fun j => j.as_number.map number.to_uint64) json v
  default_init := indeterminate
  reinit previous := previous

/-- `value_converter<std::string>`; `parse` is `json.as_string()`, and a
default-constructed string is empty. -/
def string_converter : value_converter string_t where
  to_json v := .ok (value.String v)
  from_json json v := parse value.as_string json v
  default_init := ""
  reinit _ := ""

/-! ### `value_converter<std::vector<T>>` -/

/-- `std::vector<T>::at`: throws `std::out_of_range` outside the bounds. -/
def vector_at {T : Type} (v : List T) (i : Nat) : Except Exn T :=
  match v[i]? with
  | some x => .ok x
  | none => .error .out_of_range

/-- The loop `for (size_t i = 0; i < value.size(); i++) arr[i] = to_json(value.at(i))`
with `remaining` iterations left and loop variable `i`. -/
def vector_to_json_loop {T : Type} (c : value_converter T) (v : List T) :
    Nat → Nat → value → Except Exn value
  | 0, _, arr => .ok arr
  | remaining + 1, i, arr =>
      match vector_at v i with
      | .error e => .error e
      | .ok x =>
          match c.to_json x with
          | .error e => .error e
          | .ok j =>
              match arr.assign_index i j with
              | .error e => .error e
              | .ok arr1 => vector_to_json_loop c v remaining (i + 1) arr1

/-- `value_converter<std::vector<T>>::to_json`. -/
def vector_to_json {T : Type} (c : value_converter T) (v : List T) : Except Exn value :=
  vector_to_json_loop c v v.length 0 (value.array v.length)

/-- The loop of `value_converter<std::vector<T>>::from_json`, lines 81-85, over
the elements of the tree array still to be read.  The buffer `buf` of line 80
is declared once, before the loop: `temporary` is what `new (buf) T` of this
iteration finds in it, and after `push_back(std::move(*ptr))` the next
iteration does `new (buf) T` over the element just converted.  `acc` is the
target vector. -/
def vector_from_json_loop {T : Type} (c : value_converter T) :
    T → List value → List T → Outcome (List T)
  | _, [], acc => .done acc
  | temporary, it :: rest, acc =>
      match c.from_json it temporary with
      | .raised e _ => .raised e acc
      | .done x => vector_from_json_loop c (c.reinit x) rest (acc ++ [x])

/-- `value_converter<std::vector<T>>::from_json`: `reserve(json.size())` and
`resize(0)` empty the target, whatever it held and whatever the node is, then
`json.as_array()` is read and every element appended. -/
def vector_from_json {T : Type} (c : value_converter T) (json : value) (_v : List T) :
    Outcome (List T) :=
  match json.as_array with
  | .error e => .raised e []
  | .ok elements => vector_from_json_loop c c.default_init elements []

/-- `value_converter<std::vector<T>>`; a default-constructed vector is empty. -/
def vector_converter {T : Type} (c : value_converter T) : value_converter (List T) where
  to_json := vector_to_json c
  from_json := vector_from_json c
  default_init := []
  reinit _ := []

/-! ### `value_converter<boost::optional<T>>` -/

/-- `value_converter<boost::optional<T>>::to_json`. -/
def optional_to_json {T : Type} (c : value_converter T) : Option T → Except Exn value
  | some v => c.to_json v
  | none => .ok value.null

/-- `value_converter<boost::optional<T>>::from_json`. -/
def optional_from_json {T : Type} (c : value_converter T) (json : value) (v : Option T) :
    Outcome (Option T) :=
  if !json.is_null then
    match c.from_json json c.default_init with
    | .raised e _ => .raised e v
    | .done x => .done (some x)
  else
    .done none

/-- `value_converter<boost::optional<T>>`; a default-constructed optional is
`boost::none`. -/
def optional_converter {T : Type} (c : value_converter T) : value_converter (Option T) where
  to_json := optional_to_json c
  from_json := optional_from_json c
  default_init := none
  reinit _ := none

/-! ### `DECLARE_CPPREST_JSON_ENUM_CONVERTER` -/

/-- `std::unordered_map::at` on a map whose elements are `values`: throws
`std::out_of_range` when no element has the key. -/
def unordered_map_at {E : Type} [DecidableEq E] : List (E × string_t) → E → Except Exn string_t
  | [], _ => .error .out_of_range
  | (k, label) :: rest, key => if k = key then .ok label else unordered_map_at rest key

/-- The `to_json` of the enum converter; `values` lists the elements of the
static `std::unordered_map<EnumType, std::string>` built from `__VA_ARGS__`, in
the order in which the map iterates over them. -/
def enum_to_json {E : Type} [DecidableEq E] (values : List (E × string_t)) (v : E) :
    Except Exn value :=
  match unordered_map_at values v with
  | .ok label => .ok (value.String label)
  | .error e => .error e

/-- The loop `for (auto& it : values)` of the enum `from_json`: the first element
whose label is `val` is assigned and the function returns; without one the
target is left as it is. -/
def enum_scan {E : Type} : List (E × string_t) → string_t → E → E
  | [], _, v => v
  | it :: rest, val, v => if it.2 = val then it.1 else enum_scan rest val v

/-- The `from_json` of the enum converter. -/
def enum_from_json {E : Type} (values : List (E × string_t)) (json : value) (v : E) :
    Outcome E :=
  match json.as_string with
  | .error e => .raised e v
  | .ok val => .done (enum_scan values val v)

/-- The specialisation `value_converter<EnumType>` that the macro declares. -/
def enum_converter {E : Type} [DecidableEq E] (values : List (E × string_t))
    (indeterminate : E) : value_converter E where
  to_json := enum_to_json values
  from_json := enum_from_json values
  default_init := indeterminate
  reinit previous := previous

/-! ### `field_info` -/

/-- The accessor `T accessor` of a `field_info<T>`, one constructor for each
specialisation of `getter_setter`: a pointer to a data member `R C::*`, a
method returning a reference `R& (C::*)()`, a method returning by value
`R (C::*)()` or `R (C::*)() const`, and a getter/setter pair.  A data member
and a returned reference are given by how they are read and assigned. -/
inductive getter_setter (C F : Type) where
  | member (read : C → F) (assign : C → F → C)
  | reference_method (read : C → F) (assign : C → F → C)
  | value_method (call : C → F)
  | const_value_method (call : C → F)
  | getter_setter_pair (getter : C → F) (setter : C → F → C)

namespace getter_setter

/-- `getter_setter<T>::writeable`. -/
def writeable {C F : Type} : getter_setter C F → Bool
  | member _ _ => true
  | reference_method _ _ => true
  | value_method _ => false
  | const_value_method _ => false
  | getter_setter_pair _ _ => true

/-- `getter_setter<T>::get`. -/
def get {C F : Type} : getter_setter C F → C → F
  | member read _, o => read o
  | reference_method read _, o => read o
  | value_method call, o => call o
  | const_value_method call, o => call o
  | getter_setter_pair getter _, o => getter o

/-- `getter_setter<T>::set`; the body is empty for the two get-only variants. -/
def set {C F : Type} : getter_setter C F → C → F → C
  | member _ assign, o, v => assign o v
  | reference_method _ assign, o, v => assign o v
  | value_method _, o, _ => o
  | const_value_method _, o, _ => o
  | getter_setter_pair _ setter, o, v => setter o v

end getter_setter

/-- `field_info<T>` for an accessor of class `C`: the name, the accessor, and
the specialisation `value_converter<TField>` that `convert` selects for the
field's type. -/
structure field_info (C : Type) where
  TField : Type
  name : string_t
  accessor : getter_setter C TField
  converter : value_converter TField

namespace field_info

/-- `field_info<T>::readonly`. -/
def readonly {C : Type} (info : field_info C) : Bool :=
  !info.accessor.writeable

/-- `field_info<T>::get`. -/
def get {C : Type} (info : field_info C) (object : C) : info.TField :=
  info.accessor.get object

/-- `field_info<T>::set`. -/
def set {C : Type} (info : field_info C) (object : C) (v : info.TField) : C :=
  info.accessor.set object v

end field_info

/-! ### `mapper` -/

/-- `mapper<Ts...>` over the class `O`: the tuple of its `field_info`s. -/
structure mapper (O : Type) where
  fields : List (field_info O)

namespace mapper

/-- `mapper::serialize_field_to`: `object[info.name] = convert(info.get(value))`. -/
def serialize_field_to {O : Type} (o : O) (object : value) (info : field_info O) :
    Except Exn value :=
  match convert info.converter (info.get o) with
  | .error e => .error e
  | .ok j => object.assign_key info.name j

/-- `mapper::serialize_to`: the fields are serialised in the order of the tuple. -/
def serialize_to {O : Type} : List (field_info O) → O → value → Except Exn value
  | [], _, object => .ok object
  | info :: rest, o, object =>
      match serialize_field_to o object info with
      | .error e => .error e
      | .ok object1 => serialize_to rest o object1

/-- `mapper::to_json`. -/
def to_json {O : Type} (m : mapper O) (o : O) : Except Exn value :=
  serialize_to m.fields o value.object

/-- `mapper::deserialize_field_from`, both overloads: the one for a read-only
field returns at once; the other converts the member stored under the name, or
`Null` when the object has no such member, into a new `TField` and sets it. -/
def deserialize_field_from {O : Type} (object : value) (o : O) (info : field_info O) :
    Outcome O :=
  if info.readonly then
    .done o
  else
    match (if object.has_field info.name then object.at_key info.name else .ok value.null) with
    | .error e => .raised e o
    | .ok json =>
        match convert_from info.converter json info.converter.default_init with
        | .raised e _ => .raised e o
        | .done x => .done (info.set o x)

/-- `mapper::deserialize_from`: the fields are deserialised in the order of the
tuple, and an exception leaves the owner as the fields before it wrote it. -/
def deserialize_from {O : Type} : List (field_info O) → value → O → Outcome O
  | [], _, o => .done o
  | info :: rest, object, o =>
      match deserialize_field_from object o info with
      | .raised e o1 => .raised e o1
      | .done o1 => deserialize_from rest object o1

/-- `mapper::from_json`. -/
def from_json {O : Type} (m : mapper O) (object : value) (o : O) : Outcome O :=
  deserialize_from m.fields object o

end mapper

/-- The literal `0` of type `int32_t`. -/
def int32_zero : int32_t := ⟨0, by decide⟩

/-- An example class: `struct Account { int32_t id; std::string name; }` with the
methods `int32_t get_id() const` and `std::string shown() const`, the second
returning `name`. -/
structure Account where
  id : int32_t
  name : string_t
  deriving DecidableEq

/-- `make_field("id", &Account::get_id)`: a get-only accessor. -/
def account_id_field : field_info Account :=
  ⟨int32_t, "id", .const_value_method Account.id, int32_converter int32_zero⟩

/-- `make_field("name", &Account::name)`: a direct field. -/
def account_name_field : field_info Account :=
  ⟨string_t, "name", .member Account.name (fun o v => { o with name := v }), string_converter⟩

/-- `make_field("shown", &Account::shown)`: a get-only accessor that returns the
member `name`. -/
def account_shown_field : field_info Account :=
  ⟨string_t, "shown", .const_value_method Account.name, string_converter⟩

/-- `make_mapper(make_field("id", &Account::get_id), make_field("name", &Account::name))`. -/
def account_mapper : mapper Account :=
  ⟨[account_id_field, account_name_field]⟩

/-- `make_mapper(make_field("name", &Account::name), make_field("shown", &Account::shown))`. -/
def account_shown_mapper : mapper Account :=
  ⟨[account_name_field, account_shown_field]⟩

/-- An example class with one optional integer field:
`struct Settings { boost::optional<int32_t> x; }`. -/
structure Settings where
  x : Option int32_t
  deriving DecidableEq

/-- `make_mapper(make_field("x", &Settings::x))`. -/
def settings_mapper : mapper Settings :=
  ⟨[⟨Option int32_t, "x", .member Settings.x (fun _ v => { x := v }),
      optional_converter (int32_converter int32_zero)⟩]⟩

/-- An example enumeration: `enum class Letter { A, B }`. -/
inductive Letter where
  | A
  | B
  deriving DecidableEq

/-- The elements of the map that
`DECLARE_CPPREST_JSON_ENUM_CONVERTER(Letter, ...)` declares with the entries
`Letter::A` labelled `a` and `Letter::B` labelled `b`. -/
def letter_values : List (Letter × string_t) :=
  [(Letter.A, "a"), (Letter.B, "b")]

/-- An example class with a mapper of its own:
`struct Item { int32_t id; std::string label; }`. -/
structure Item where
  id : int32_t
  label : string_t
  deriving DecidableEq

/-- `make_mapper(make_field("id", &Item::id), make_field("label", &Item::label))`. -/
def item_mapper : mapper Item :=
  ⟨[⟨int32_t, "id", .member Item.id (fun o v => { o with id := v }),
      int32_converter int32_zero⟩,
    ⟨string_t, "label", .member Item.label (fun o v => { o with label := v }),
      string_converter⟩]⟩

/-- A converter round-trips: `to_json(v)` returns a node from which `from_json`
returns with the target equal to `v`, whatever the target held. -/
def round_trips {T : Type} (c : value_converter T) : Prop :=
  ∀ v v2 : T, ∃ j, c.to_json v = .ok j ∧ c.from_json j v2 = .done v

/-- The fields of a mapper are uniquely named writable fields: the names are
pairwise distinct, no accessor is get-only, `get` after `set` returns the
value set, and `set` of one field leaves what `get` of another returns. -/
structure mapper.plain_fields {O : Type} (m : mapper O) : Prop where
  names_distinct : (m.fields.map (fun info => info.name)).Nodup
  writable : ∀ info ∈ m.fields, info.readonly = false
  get_set : ∀ info ∈ m.fields, ∀ (o : O) (v : info.TField), info.get (info.set o v) = v
  get_set_other : ∀ info ∈ m.fields, ∀ other ∈ m.fields, info.name ≠ other.name →
    ∀ (o : O) (v : info.TField), other.get (info.set o v) = other.get o

/-! ### Integral number nodes -/

/-- A number of integral type holds the integer `n`: its tag is `signed_type`
and `n` is an `int64_t`, or its tag is `unsigned_type` and `n` is a `uint64_t`.
A number of `double_type` holds no integer in this sense. -/
def holds_integer : number → Int → Prop
  | .signed_type i, n => i = n ∧ -2 ^ 63 ≤ n ∧ n < 2 ^ 63
  | .unsigned_type u, n => u = n ∧ 0 ≤ n ∧ n < 2 ^ 64
  | .double_type _, _ => False

/-! ### Static types and the overloads of `parse` -/

/-- Static types `T` at which `value_converter<T>` is instantiated: `bool`,
`char`, the fixed-width integer types, the floating-point types, `std::string`,
and the pointer, smart pointer, container and optional types built from them.
The list is not the whole of the C++ types; what is proved of `viable_parse`
is proved type by type. -/
inductive cpp_type where
  | bool
  | char
  | int8_t
  | uint8_t
  | int16_t
  | uint16_t
  | int32_t
  | uint32_t
  | int64_t
  | uint64_t
  | float
  | double
  | long_double
  | string
  | raw_pointer (element : cpp_type)
  | unique_ptr (element : cpp_type)
  | shared_ptr (element : cpp_type)
  | vector (element : cpp_type)
  | array (element : cpp_type) (N : Nat)
  | optional (element : cpp_type)
  deriving DecidableEq

namespace cpp_type

/-- `std::is_floating_point<T>::value`. -/
def is_floating_point : cpp_type → Bool
  | float => true
  | double => true
  | long_double => true
  | _ => false

/-- `std::is_arithmetic<T>::value`: the integral types, `bool` among them, and
the floating-point types. -/
def is_arithmetic : cpp_type → Bool
  | bool => true
  | char => true
  | int8_t => true
  | uint8_t => true
  | int16_t => true
  | uint16_t => true
  | int32_t => true
  | uint32_t => true
  | int64_t => true
  | uint64_t => true
  | float => true
  | double => true
  | long_double => true
  | _ => false

/-- `std::is_pointer<T>::value`: true of a raw pointer only, false of
`std::unique_ptr` and `std::shared_ptr`, which are class types. -/
def is_pointer : cpp_type → Bool
  | raw_pointer _ => true
  | _ => false

end cpp_type

/-- The condition of the partial specialisation at lines 18-19:
`std::is_arithmetic<T>::value || std::is_same<T, std::string>::value`. -/
def arithmetic_or_string_selected (T : cpp_type) : Bool :=
  T.is_arithmetic || decide (T = .string)

/-- The seven overloads of `parse` at lines 20-47, named by the read each one
performs. -/
inductive parse_overload where
  | to_int32
  | to_uint32
  | to_int64
  | to_uint64
  | as_double
  | as_bool
  | as_string
  deriving DecidableEq

/-- The `std::enable_if_t` condition of each overload of `parse` at the type `I`
of the target. -/
def parse_overload.enabled : parse_overload → cpp_type → Bool
  | .to_int32, I => decide (I = .int32_t)
  | .to_uint32, I => decide (I = .uint32_t)
  | .to_int64, I => decide (I = .int64_t)
  | .to_uint64, I => decide (I = .uint64_t)
  | .as_double, I => I.is_floating_point
  | .as_bool, I => decide (I = .bool)
  | .as_string, I => decide (I = .string)

/-- The overloads that take part in the resolution of the call
`parse(json, value)` at line 54 for a target of type `I`; the call is ill-formed
when there is none. -/
def viable_parse (I : cpp_type) : List parse_overload :=
  [.to_int32, .to_uint32, .to_int64, .to_uint64, .as_double, .as_bool, .as_string].filter
    (fun overload => overload.enabled I)

/-! ### `value_converter<std::array<T, N>>` -/

/-- `std::array<T, N>`: a sequence of exactly `N` elements. -/
abbrev std_array (T : Type) (N : Nat) := { elements : List T // elements.length = N }

/-- `value_converter<std::array<T, N>>::to_json`, lines 92-98: the loop
`for (size_t i = 0; i < N; i++) arr[i] = to_json(value.at(i))` on
`value::array(N)`. -/
def array_to_json {T : Type} (c : value_converter T) (N : Nat) (v : std_array T N) :
    Except Exn value :=
  vector_to_json_loop c v.val N 0 (value.array N)

/-- Member functions of the sequence containers that the bodies of `to_json`
and `from_json` call on the C++ value. -/
inductive sequence_member where
  | size
  | at_index
  | reserve
  | resize
  | push_back
  deriving DecidableEq

/-- The members that `std::vector` declares. -/
def vector_declares : sequence_member → Bool
  | _ => true

/-- The members that `std::array` declares: its size is fixed, so it has no
`reserve`, `resize` or `push_back`. -/
def array_declares : sequence_member → Bool
  | .size => true
  | .at_index => true
  | .reserve => false
  | .resize => false
  | .push_back => false

/-- The members that `value_converter<std::array<T, N>>::to_json` calls on its
argument (line 95). -/
def array_to_json_calls : List sequence_member :=
  [.at_index]

/-- The members that `value_converter<std::array<T, N>>::from_json` calls on
its target: `value.reserve(N)` (line 101), `value.resize(0)` (line 102) and
`value.push_back(...)` (line 107), the body of the `std::vector` converter. -/
def array_from_json_calls : List sequence_member :=
  [.reserve, .resize, .push_back]

/-- The members that `value_converter<std::vector<T>>::from_json` calls on its
target (lines 78, 79 and 84). -/
def vector_from_json_calls : List sequence_member :=
  [.reserve, .resize, .push_back]

/-! ### `value_converter<T, std::enable_if_t<std::is_pointer<T>::value>>` -/

/-- The templates among which `value_converter<T>` is chosen: the partial
specialisations of the header and the primary template of lines 10-16, whose
two functions are declared and nowhere defined. -/
inductive specialization where
  | arithmetic_or_string
  | vector
  | array
  | optional
  | pointer
  | primary
  deriving DecidableEq

/-- The template that `value_converter<T>` names at the type `T`. -/
def select_specialization (T : cpp_type) : specialization :=
  if arithmetic_or_string_selected T then .arithmetic_or_string
  else if T.is_pointer then .pointer
  else
    match T with
    | .vector _ => .vector
    | .array _ _ => .array
    | .optional _ => .optional
    | _ => .primary

/-- The type at which line 162 calls `from_json` inside the pointer
specialisation for `T`: `value_converter<std::decay_t<T>>`, and `std::decay_t`
of a pointer type is the pointer type. -/
def pointer_from_json_callee (T : cpp_type) : cpp_type :=
  T

/-- The three overloads of `assign`, lines 139-148, by the type of their second
parameter. -/
inductive assign_overload where
  | raw
  | unique
  | shared
  deriving DecidableEq

/-- The type to which the second parameter of an overload of `assign` refers,
for the pointee type `V`: `V*`, `std::unique_ptr<V>` or `std::shared_ptr<V>`. -/
def assign_overload.pointer_type (V : cpp_type) : assign_overload → cpp_type
  | .raw => .raw_pointer V
  | .unique => .unique_ptr V
  | .shared => .shared_ptr V

/-- The overloads of `assign` that accept the call `assign(*ptr, value)` of line
163 in the specialisation for `V*`, where `*ptr` and `value` both have the type
`V*`: the first parameter `V&` binds to an lvalue of type `V` only, the second
to an lvalue of the overload's pointer type only. -/
def viable_assign (V : cpp_type) : List assign_overload :=
  [.raw, .unique, .shared].filter
    (fun overload => decide (cpp_type.raw_pointer V = V) &&
      decide (cpp_type.raw_pointer V = overload.pointer_type V))

/-- `value_converter<T, is_pointer>::from_json`, lines 158-168, for a pointer
type whose values are `P`.  The temporary `*ptr` has the pointer type itself,
and the call of line 162 is a call of this same function with the same node;
`fuel` bounds the depth of these calls, and `none` says that the bound was
reached.  `assign` stands for the call of line 163, `indeterminate` for the
content of the new temporary. -/
def pointer_from_json {P : Type} (null indeterminate : P) (assign : P → P → P) :
    Nat → value → P → Option (Outcome P)
  | 0, _, _ => none
  | fuel + 1, json, v =>
      if !json.is_null then
        match pointer_from_json null indeterminate assign fuel json indeterminate with
        | none => none
        | some (.raised e _) => some (.raised e v)
        | some (.done p) => some (.done (assign p v))
      else
        some (.done null)

/-! ### Data members of a class -/

/-- The node that a writable field is converted from, the argument
`object.has_field(info.name) ? object.at(info.name) : Null` of `convert` at line
360. -/
def mapper.field_json (object : value) (name : string_t) : Except Exn value :=
  if object.has_field name then object.at_key name else .ok value.null

/-- The first field of `item_mapper`, `make_field("id", &Item::id)`. -/
def item_id_field : field_info Item :=
  ⟨int32_t, "id", .member Item.id (fun o v => { o with id := v }), int32_converter int32_zero⟩

/-- The second field of `item_mapper`, `make_field("label", &Item::label)`. -/
def item_label_field : field_info Item :=
  ⟨string_t, "label", .member Item.label (fun o v => { o with label := v }), string_converter⟩

/-- `make_field("id", &Account::id)`: the data member `id` as a direct field. -/
def account_id_member_field : field_info Account :=
  ⟨int32_t, "id", .member Account.id (fun o v => { o with id := v }),
    int32_converter int32_zero⟩

/-- A mapper of `Account` with the direct fields `"name"` and `"id"` followed by
the get-only field `"shown"`, which returns the member `name`. -/
def account_view_mapper : mapper Account :=
  ⟨[account_name_field, account_id_member_field, account_shown_field]⟩

end utility

/-! ## Arithmetic of the integer casts -/

theorem wrap_signed_of_int32 (i : Int) (h : -2 ^ 31 ≤ i ∧ i < 2 ^ 31) :
    wrap_signed 32 (wrap_signed 64 i) = i := by
  unfold wrap_signed
  omega

theorem wrap_signed_of_int64 (i : Int) (h : -2 ^ 63 ≤ i ∧ i < 2 ^ 63) :
    wrap_signed 64 (wrap_signed 64 i) = i := by
  unfold wrap_signed
  omega

theorem wrap_unsigned_of_uint32 (i : Int) (h : 0 ≤ i ∧ i < 2 ^ 32) :
    wrap_unsigned 32 (wrap_signed 64 i) = i := by
  unfold wrap_signed wrap_unsigned
  omega

theorem wrap_unsigned_of_uint64 (i : Int) (h : 0 ≤ i ∧ i < 2 ^ 64) :
    wrap_unsigned 64 (wrap_signed 64 i) = i := by
  unfold wrap_signed wrap_unsigned
  omega

namespace number

theorem to_int32_of_signed (v : int32_t) : (of_signed v.val).to_int32 = v := by
  apply Subtype.ext
  unfold of_signed
  split <;> simp [to_int32, cast_int32, as_intval, wrap_signed_of_int32 v.val v.property]

theorem to_int64_of_signed (v : int64_t) : (of_signed v.val).to_int64 = v := by
  apply Subtype.ext
  unfold of_signed
  split <;> simp [to_int64, cast_int64, as_intval, wrap_signed_of_int64 v.val v.property]

theorem to_uint32_of_unsigned (v : uint32_t) : (of_unsigned v.val).to_uint32 = v := by
  apply Subtype.ext
  simp [of_unsigned, to_uint32, cast_uint32, as_intval,
    wrap_unsigned_of_uint32 v.val v.property]

theorem to_uint64_of_unsigned (v : uint64_t) : (of_unsigned v.val).to_uint64 = v := by
  apply Subtype.ext
  simp [of_unsigned, to_uint64, cast_uint64, as_intval,
    wrap_unsigned_of_uint64 v.val v.property]

end number

/-! ## Members of an object -/

namespace value

theorem chars_less_irrefl : ∀ l : List Char, chars_less l l = false
  | [] => rfl
  | a :: as => by simp [chars_less, chars_less_irrefl as]

theorem key_less_ne {a b : string_t} (h : key_less a b = true) : a ≠ b := by
  rintro rfl
  simp [key_less, chars_less_irrefl] at h

theorem find_member_set_member_same (ms : List (string_t × value)) (key : string_t)
    (v : value) : find_member (set_member ms key v) key = some v := by
  induction ms with
  | nil => simp [set_member, find_member]
  | cons p rest ih =>
      obtain ⟨k, x⟩ := p
      unfold set_member
      by_cases hlt : key_less k key = true
      · simp [hlt, find_member, key_less_ne hlt, ih]
      · by_cases hne : key = k
        · subst hne
          simp [hlt, find_member]
        · simp [hlt, hne, find_member]

theorem find_member_set_member_other (ms : List (string_t × value)) (key other : string_t)
    (v : value) (h : other ≠ key) :
    find_member (set_member ms key v) other = find_member ms other := by
  induction ms with
  | nil => simp [set_member, find_member, Ne.symm h]
  | cons p rest ih =>
      obtain ⟨k, x⟩ := p
      unfold set_member
      by_cases hlt : key_less k key = true
      · simp [hlt, find_member, ih]
      · by_cases hne : key = k
        · subst hne
          simp [hlt, find_member, Ne.symm h]
        · simp [hlt, hne, find_member, Ne.symm h]

end value

/-! ## The sequence strategy -/

namespace utility

theorem vector_at_append {T : Type} (pre rest : List T) (x : T) :
    vector_at (pre ++ x :: rest) pre.length = .ok x := by
  have h : (pre ++ x :: rest)[pre.length]? = some x := by
    rw [List.getElem?_append_right (le_refl _)]
    simp
  simp [vector_at, h]

theorem assign_index_fill (filled : List value) (j : value) (n : Nat) :
    (value.Array (filled ++ List.replicate (n + 1) value.Null)).assign_index filled.length j
      = .ok (value.Array ((filled ++ [j]) ++ List.replicate n value.Null)) := by
  have hlen : filled.length + 1 - (filled ++ List.replicate (n + 1) value.Null).length = 0 := by
    simp
  simp only [value.assign_index, hlen, List.replicate_zero, List.append_nil]
  congr 2
  simp [List.replicate_succ]

theorem vector_to_json_loop_spec {T : Type} (c : value_converter T) (f : T → value) :
    ∀ (rest pre : List T), (∀ x ∈ rest, c.to_json x = .ok (f x)) →
      vector_to_json_loop c (pre ++ rest) rest.length pre.length
          (value.Array (pre.map f ++ List.replicate rest.length value.Null))
        = .ok (value.Array ((pre ++ rest).map f)) := by
  intro rest
  induction rest with
  | nil => intro pre _; simp [vector_to_json_loop]
  | cons x rest ih =>
      intro pre h
      have hx : c.to_json x = .ok (f x) := h x (List.mem_cons_self _ _)
      have hfill := assign_index_fill (pre.map f) (f x) rest.length
      rw [List.length_map] at hfill
      have hstep := ih (pre ++ [x]) (fun y hy => h y (List.mem_cons_of_mem _ hy))
      simp only [List.append_assoc, List.singleton_append, List.length_append,
        List.length_singleton, List.map_append, List.map_cons, List.map_nil] at hstep
      simp only [List.length_cons, vector_to_json_loop, vector_at_append, hx, hfill,
        List.append_assoc, List.singleton_append]
      simpa using hstep

theorem vector_to_json_eq {T : Type} (c : value_converter T) (f : T → value) (xs : List T)
    (h : ∀ x ∈ xs, c.to_json x = .ok (f x)) :
    vector_to_json c xs = .ok (value.Array (xs.map f)) := by
  have := vector_to_json_loop_spec c f xs [] h
  simpa [vector_to_json, value.array] using this

theorem vector_from_json_loop_spec {T : Type} (c : value_converter T) :
    ∀ (elements : List value) (xs : List T) (temporary : T) (acc : List T),
      List.Forall₂ (fun j (p : T × T) => c.from_json j p.1 = .done p.2) elements
        (List.zip (temporary :: xs.map c.reinit) xs) →
      vector_from_json_loop c temporary elements acc = .done (acc ++ xs) := by
  intro elements
  induction elements with
  | nil =>
      intro xs temporary acc h
      cases xs with
      | nil => simp [vector_from_json_loop]
      | cons x xs1 => simp [List.zip] at h
  | cons e rest ih =>
      intro xs temporary acc h
      cases xs with
      | nil => simp [List.zip] at h
      | cons x xs1 =>
          simp only [List.map_cons, List.zip_cons_cons, List.forall₂_cons] at h
          have hstep := ih xs1 (c.reinit x) (acc ++ [x]) h.2
          simp only [vector_from_json_loop, h.1]
          simpa using hstep

theorem forall₂_zip_of_forall {T : Type} (c : value_converter T) (read : value → T) :
    ∀ (elements : List value) (temporary : T),
      (∀ e ∈ elements, ∀ t : T, c.from_json e t = .done (read e)) →
      List.Forall₂ (fun j (p : T × T) => c.from_json j p.1 = .done p.2) elements
        (List.zip (temporary :: (elements.map read).map c.reinit) (elements.map read)) := by
  intro elements
  induction elements with
  | nil => intro _ _; simp [List.zip]
  | cons e rest ih =>
      intro temporary h
      simp only [List.map_cons, List.zip_cons_cons, List.forall₂_cons]
      exact ⟨h e (List.mem_cons_self _ _) temporary,
        ih (c.reinit (read e)) (fun e1 he1 => h e1 (List.mem_cons_of_mem _ he1))⟩

theorem vector_from_json_eq_of_forall {T : Type} (c : value_converter T) (read : value → T)
    (elements : List value) (ys : List T)
    (h : ∀ e ∈ elements, ∀ t : T, c.from_json e t = .done (read e)) :
    vector_from_json c (value.Array elements) ys = .done (elements.map read) := by
  simpa [vector_from_json, value.as_array] using
    vector_from_json_loop_spec c elements (elements.map read) c.default_init []
      (forall₂_zip_of_forall c read elements c.default_init h)

theorem vector_from_json_loop_length {T : Type} (c : value_converter T) :
    ∀ (elements : List value) (temporary : T) (acc xs : List T),
      vector_from_json_loop c temporary elements acc = .done xs →
      xs.length = acc.length + elements.length := by
  intro elements
  induction elements with
  | nil =>
      intro temporary acc xs h
      simp only [vector_from_json_loop] at h
      cases h
      simp
  | cons e rest ih =>
      intro temporary acc xs h
      simp only [vector_from_json_loop] at h
      cases hx : c.from_json e temporary with
      | raised e1 t => simp [hx] at h
      | done x =>
          simp only [hx] at h
          have := ih (c.reinit x) (acc ++ [x]) xs h
          simp only [List.length_append, List.length_singleton, List.length_cons,
            List.length_nil] at this ⊢
          omega

theorem int32_from_json_number (u : int32_t) (n : number) (v2 : int32_t) :
    (int32_converter u).from_json (value.Number n) v2 = .done n.to_int32 := rfl

end utility

/-! ## The enum strategy -/

namespace utility

theorem enum_scan_miss {E : Type} (val : string_t) (v : E) :
    ∀ values : List (E × string_t), (∀ it ∈ values, it.2 ≠ val) →
      enum_scan values val v = v := by
  intro values
  induction values with
  | nil => intro _; rfl
  | cons it rest ih =>
      intro h
      have hit : it.2 ≠ val := h it (List.mem_cons_self _ _)
      simp only [enum_scan, hit, if_false]
      exact ih (fun it1 h1 => h it1 (List.mem_cons_of_mem _ h1))

end utility

/-! ## The mapper -/

namespace utility

namespace mapper

theorem serialize_to_spec {O : Type} (o : O) :
    ∀ (fields : List (field_info O)) (ms : List (string_t × value)),
      (∀ info ∈ fields, ∃ j, convert info.converter (info.get o) = .ok j) →
      ∃ ms1, serialize_to fields o (value.Object ms) = .ok (value.Object ms1) ∧
        (∀ key, key ∉ fields.map (fun info => info.name) →
          value.find_member ms1 key = value.find_member ms key) ∧
        (∀ key, key ∈ fields.map (fun info => info.name) →
          (value.find_member ms1 key).isSome = true) ∧
        ((fields.map (fun info => info.name)).Nodup →
          ∀ info ∈ fields, ∃ j, convert info.converter (info.get o) = .ok j ∧
            value.find_member ms1 info.name = some j) := by
  intro fields
  induction fields with
  | nil =>
      intro ms _
      exact ⟨ms, rfl, fun _ _ => rfl, by simp, by simp⟩
  | cons f rest ih =>
      intro ms h
      obtain ⟨j, hj⟩ := h f (List.mem_cons_self _ _)
      obtain ⟨ms1, hrun, hother, hsome, hval⟩ :=
        ih (value.set_member ms f.name j) (fun g hg => h g (List.mem_cons_of_mem _ hg))
      refine ⟨ms1, ?_, ?_, ?_, ?_⟩
      · simp [serialize_to, serialize_field_to, hj, value.assign_key, hrun]
      · intro key hkey
        simp only [List.map_cons, List.mem_cons, not_or] at hkey
        rw [hother key hkey.2, value.find_member_set_member_other _ _ _ _ hkey.1]
      · intro key hkey
        by_cases hin : key ∈ rest.map (fun info => info.name)
        · exact hsome key hin
        · simp only [List.map_cons, List.mem_cons] at hkey
          have hk : key = f.name := hkey.resolve_right hin
          subst hk
          rw [hother _ hin, value.find_member_set_member_same]
          rfl
      · intro hnodup g hg
        simp only [List.map_cons, List.nodup_cons] at hnodup
        rcases List.mem_cons.1 hg with rfl | hg
        · exact ⟨j, hj, by rw [hother _ hnodup.1, value.find_member_set_member_same]⟩
        · exact hval hnodup.2 g hg

theorem deserialize_field_from_readonly {O : Type} (object : value) (o : O)
    (info : field_info O) (h : info.readonly = true) :
    deserialize_field_from object o info = .done o := by
  simp [deserialize_field_from, h]

theorem deserialize_field_from_target {O : Type} (object : value) (o : O)
    (info : field_info O) :
    (deserialize_field_from object o info).target = o ∨
      (info.readonly = false ∧
        ∃ x, (deserialize_field_from object o info).target = info.set o x) := by
  unfold deserialize_field_from
  cases hro : info.readonly with
  | true => left; simp [Outcome.target]
  | false =>
      simp only [Bool.false_eq_true, if_false]
      split
      · left; rfl
      · split
        · left; rfl
        · right; exact ⟨trivial, _, rfl⟩

theorem deserialize_from_frame {O α : Type} (observe : O → α) :
    ∀ (fields : List (field_info O)) (object : value) (o : O),
      (∀ g ∈ fields, g.readonly = false → ∀ (o1 : O) (v : g.TField),
        observe (g.set o1 v) = observe o1) →
      observe (deserialize_from fields object o).target = observe o := by
  intro fields
  induction fields with
  | nil => intro _ _ _; rfl
  | cons f rest ih =>
      intro object o h
      have hstep := deserialize_field_from_target object o f
      have hrest := fun o1 => ih object o1 (fun g hg => h g (List.mem_cons_of_mem _ hg))
      have hobs : observe (deserialize_field_from object o f).target = observe o := by
        rcases hstep with h1 | ⟨hw, x, h1⟩
        · rw [h1]
        · rw [h1]; exact h f (List.mem_cons_self _ _) hw o x
      unfold deserialize_from
      cases hrun : deserialize_field_from object o f with
      | raised e o1 =>
          rw [hrun] at hobs
          exact hobs
      | done o1 =>
          rw [hrun] at hobs
          simp only []
          rw [hrest o1]
          exact hobs

theorem deserialize_field_from_extend {O : Type} (members : List (string_t × value))
    (key : string_t) (o : O) (info : field_info O)
    (hkey : value.find_member members key = none) :
    deserialize_field_from (value.Object members) o info
      = deserialize_field_from (value.Object (value.set_member members key value.Null)) o
          info := by
  unfold deserialize_field_from
  by_cases hname : info.name = key
  · simp [value.has_field, value.at_key, hname, hkey, value.find_member_set_member_same,
      value.null]
  · simp [value.has_field, value.at_key, value.find_member_set_member_other _ _ _ _ hname]

theorem deserialize_from_extend {O : Type} (members : List (string_t × value))
    (key : string_t) (hkey : value.find_member members key = none) :
    ∀ (fields : List (field_info O)) (o : O),
      deserialize_from fields (value.Object members) o
        = deserialize_from fields
            (value.Object (value.set_member members key value.Null)) o := by
  intro fields
  induction fields with
  | nil => intro o; rfl
  | cons f rest ih =>
      intro o
      unfold deserialize_from
      rw [← deserialize_field_from_extend members key o f hkey]
      cases deserialize_field_from (value.Object members) o f with
      | raised e o1 => rfl
      | done o1 => exact ih o1

end mapper

end utility

/-! ## A sequence of objects -/

namespace utility

end utility

/-! ## The example mappers -/

namespace utility

theorem int32_converter_round_trips (u : int32_t) : round_trips (int32_converter u) := by
  intro v v2
  exact ⟨_, rfl, by rw [int32_from_json_number, number.to_int32_of_signed]⟩

theorem item_mapper_plain : item_mapper.plain_fields where
  names_distinct := by decide
  writable := by
    intro info hinfo
    simp only [item_mapper, List.mem_cons, List.mem_singleton, List.not_mem_nil, or_false]
      at hinfo
    rcases hinfo with rfl | rfl <;> rfl
  get_set := by
    intro info hinfo o v
    simp only [item_mapper, List.mem_cons, List.mem_singleton, List.not_mem_nil, or_false]
      at hinfo
    rcases hinfo with rfl | rfl <;> rfl
  get_set_other := by
    intro info hinfo other hother hne o v
    simp only [item_mapper, List.mem_cons, List.mem_singleton, List.not_mem_nil, or_false]
      at hinfo hother
    rcases hinfo with rfl | rfl <;> rcases hother with rfl | rfl <;>
      first
        | rfl
        | exact absurd rfl hne

end utility

/-! ## The labels of an enum -/

namespace utility

theorem unordered_map_at_miss {E : Type} [DecidableEq E] (e : E) :
    ∀ values : List (E × string_t), (∀ it ∈ values, it.1 ≠ e) →
      unordered_map_at values e = .error .out_of_range := by
  intro values
  induction values with
  | nil => intro _; rfl
  | cons it rest ih =>
      intro h
      obtain ⟨k, label⟩ := it
      have hk : k ≠ e := h (k, label) (List.mem_cons_self _ _)
      simp only [unordered_map_at, hk, if_false]
      exact ih (fun it1 h1 => h it1 (List.mem_cons_of_mem _ h1))

theorem unordered_map_at_found {E : Type} [DecidableEq E] (e : E) :
    ∀ values : List (E × string_t), (∃ it ∈ values, it.1 = e) →
      ∃ label, (e, label) ∈ values ∧ unordered_map_at values e = .ok label := by
  intro values
  induction values with
  | nil => rintro ⟨it, hit, _⟩; cases hit
  | cons it rest ih =>
      intro h
      obtain ⟨k, label⟩ := it
      by_cases hk : k = e
      · subst hk
        exact ⟨label, List.mem_cons_self _ _, by simp [unordered_map_at]⟩
      · obtain ⟨it1, hit1, he⟩ := h
        have hrest : ∃ it ∈ rest, it.1 = e := by
          rcases List.mem_cons.1 hit1 with rfl | hmem
          · exact absurd he hk
          · exact ⟨it1, hmem, he⟩
        obtain ⟨label1, hmem1, hat⟩ := ih hrest
        exact ⟨label1, List.mem_cons_of_mem _ hmem1, by simp [unordered_map_at, hk, hat]⟩

theorem unordered_map_at_entry {E : Type} [DecidableEq E] (e : E) (label : string_t) :
    ∀ values : List (E × string_t), (values.map Prod.fst).Nodup → (e, label) ∈ values →
      unordered_map_at values e = .ok label := by
  intro values
  induction values with
  | nil => intro _ h; cases h
  | cons it rest ih =>
      intro hnodup hmem
      obtain ⟨k, label1⟩ := it
      simp only [List.map_cons, List.nodup_cons] at hnodup
      rcases List.mem_cons.1 hmem with heq | hrest
      · cases heq
        simp [unordered_map_at]
      · have hk : k ≠ e := by
          rintro rfl
          exact hnodup.1 (List.mem_map_of_mem Prod.fst hrest)
        simp only [unordered_map_at, hk, if_false]
        exact ih hnodup.2 hrest

end utility

/-! ## The scan of the enum labels -/

namespace utility

theorem enum_scan_found {E : Type} (val : string_t) (v : E) :
    ∀ values : List (E × string_t), (∃ it ∈ values, it.2 = val) →
      ∃ it ∈ values, it.2 = val ∧ enum_scan values val v = it.1 := by
  intro values
  induction values with
  | nil => rintro ⟨it, hit, _⟩; cases hit
  | cons it rest ih =>
      intro h
      by_cases hl : it.2 = val
      · exact ⟨it, List.mem_cons_self _ _, hl, by simp [enum_scan, hl]⟩
      · obtain ⟨it1, hit1, hv⟩ := h
        have hrest : ∃ it ∈ rest, it.2 = val := by
          rcases List.mem_cons.1 hit1 with rfl | hmem
          · exact absurd hv hl
          · exact ⟨it1, hmem, hv⟩
        obtain ⟨it2, hmem2, hv2, hscan⟩ := ih hrest
        exact ⟨it2, List.mem_cons_of_mem _ hmem2, hv2, by simp [enum_scan, hl, hscan]⟩

theorem enum_scan_entry {E : Type} (e : E) (label : string_t) (v : E) :
    ∀ values : List (E × string_t), (values.map Prod.snd).Nodup → (e, label) ∈ values →
      enum_scan values label v = e := by
  intro values
  induction values with
  | nil => intro _ h; cases h
  | cons it rest ih =>
      intro hnodup hmem
      simp only [List.map_cons, List.nodup_cons] at hnodup
      rcases List.mem_cons.1 hmem with heq | hrest
      · subst heq
        simp [enum_scan]
      · have hl : it.2 ≠ label := by
          intro hl
          exact hnodup.1 (hl ▸ List.mem_map_of_mem Prod.snd hrest)
        simp only [enum_scan, hl, if_false]
        exact ih hnodup.2 hrest

end utility

/-! ## A sequence whose element fails -/

namespace utility

theorem vector_from_json_loop_raise {T : Type} (c : value_converter T) (bad : value)
    (post : List value) (e : Exn) :
    ∀ (pre : List value) (xs : List T) (temporary : T) (acc : List T) (t : T),
      List.Forall₂ (fun j (p : T × T) => c.from_json j p.1 = .done p.2) pre
        (List.zip (temporary :: xs.map c.reinit) xs) →
      c.from_json bad (xs.foldl (fun _ x => c.reinit x) temporary) = .raised e t →
      vector_from_json_loop c temporary (pre ++ bad :: post) acc = .raised e (acc ++ xs) := by
  intro pre
  induction pre with
  | nil =>
      intro xs temporary acc t h hbad
      cases xs with
      | nil =>
          simp only [List.foldl_nil] at hbad
          simp [vector_from_json_loop, hbad]
      | cons x xs1 => simp [List.zip] at h
  | cons j rest ih =>
      intro xs temporary acc t h hbad
      cases xs with
      | nil => simp [List.zip] at h
      | cons x xs1 =>
          simp only [List.map_cons, List.zip_cons_cons, List.forall₂_cons] at h
          simp only [List.foldl_cons] at hbad
          have hstep := ih xs1 (c.reinit x) (acc ++ [x]) t h.2 hbad
          simp only [List.cons_append, vector_from_json_loop, h.1]
          simpa using hstep

end utility

/-! ## A mapper whose field fails -/

namespace utility

namespace mapper

theorem deserialize_field_from_done {O : Type} (object : value) (o : O) (info : field_info O)
    (json : value) (x : info.TField) (hw : info.readonly = false)
    (hjson : field_json object info.name = .ok json)
    (hx : convert_from info.converter json info.converter.default_init = .done x) :
    deserialize_field_from object o info = .done (info.set o x) := by
  unfold field_json at hjson
  simp only [deserialize_field_from, hw, Bool.false_eq_true, if_false, hjson, hx]

theorem deserialize_field_from_raised {O : Type} (object : value) (o : O)
    (info : field_info O) (json : value) (e : Exn) (t : info.TField)
    (hw : info.readonly = false) (hjson : field_json object info.name = .ok json)
    (hx : convert_from info.converter json info.converter.default_init = .raised e t) :
    deserialize_field_from object o info = .raised e o := by
  unfold field_json at hjson
  simp only [deserialize_field_from, hw, Bool.false_eq_true, if_false, hjson, hx]

theorem deserialize_from_append {O : Type} (object : value) :
    ∀ (pre rest : List (field_info O)) (o : O),
      deserialize_from (pre ++ rest) object o
        = match deserialize_from pre object o with
          | .raised e o1 => .raised e o1
          | .done o1 => deserialize_from rest object o1 := by
  intro pre
  induction pre with
  | nil => intro rest o; rfl
  | cons f pre ih =>
      intro rest o
      simp only [List.cons_append, deserialize_from]
      cases deserialize_field_from object o f with
      | raised e o1 => rfl
      | done o1 => exact ih rest o1

theorem deserialize_from_prefix {O : Type} (object : value) :
    ∀ (pre : List (field_info O)),
      (pre.map (fun info => info.name)).Nodup →
      (∀ info ∈ pre, info.readonly = false →
        ∀ (o : O) (v : info.TField), info.get (info.set o v) = v) →
      (∀ info ∈ pre, ∀ other ∈ pre, info.name ≠ other.name →
        ∀ (o : O) (v : info.TField), other.get (info.set o v) = other.get o) →
      (∀ info ∈ pre, info.readonly = false → ∃ json x,
        field_json object info.name = .ok json ∧
        convert_from info.converter json info.converter.default_init = .done x) →
      ∀ o : O, ∃ o1, deserialize_from pre object o = .done o1 ∧
        ∀ info ∈ pre, info.readonly = false → ∃ json,
          field_json object info.name = .ok json ∧
          convert_from info.converter json info.converter.default_init
            = .done (info.get o1) := by
  intro pre
  induction pre with
  | nil =>
      intro _ _ _ _ o
      exact ⟨o, rfl, by simp⟩
  | cons f rest ih =>
      intro hnames hgs hother hconv o
      simp only [List.map_cons, List.nodup_cons] at hnames
      have ih1 := ih hnames.2
        (fun g hg => hgs g (List.mem_cons_of_mem _ hg))
        (fun g hg g1 hg1 => hother g (List.mem_cons_of_mem _ hg) g1 (List.mem_cons_of_mem _ hg1))
        (fun g hg => hconv g (List.mem_cons_of_mem _ hg))
      cases hro : f.readonly with
      | true =>
          obtain ⟨o1, hrun, hall⟩ := ih1 o
          refine ⟨o1, by simp [deserialize_from, deserialize_field_from_readonly _ _ _ hro, hrun],
            ?_⟩
          intro g hg hw
          rcases List.mem_cons.1 hg with rfl | hg
          · rw [hro] at hw
            cases hw
          · exact hall g hg hw
      | false =>
          obtain ⟨json, x, hjson, hx⟩ := hconv f (List.mem_cons_self _ _) hro
          obtain ⟨o1, hrun, hall⟩ := ih1 (f.set o x)
          refine ⟨o1, by
            simp [deserialize_from, deserialize_field_from_done object o f json x hro hjson hx,
              hrun], ?_⟩
          intro g hg hw
          rcases List.mem_cons.1 hg with rfl | hg
          · refine ⟨json, hjson, ?_⟩
            have hframe := deserialize_from_frame g.get rest object (g.set o x)
              (by
                intro g1 hg1 _ o3 v
                have hne : g1.name ≠ g.name := by
                  intro heq
                  exact hnames.1 (heq ▸ List.mem_map_of_mem (fun info => info.name) hg1)
                exact hother g1 (List.mem_cons_of_mem _ hg1) g (List.mem_cons_self _ _) hne o3 v)
            rw [hrun] at hframe
            simp only [Outcome.target] at hframe
            rw [hframe, hgs g (List.mem_cons_self _ _) hro]
            exact hx
          · exact hall g hg hw

end mapper

end utility

/-! ## The fields before the failing one -/

namespace utility

namespace mapper

theorem deserialize_from_done {O : Type} (object : value) :
    ∀ (pre : List (field_info O)),
      (∀ info ∈ pre, info.readonly = false → ∃ json x,
        field_json object info.name = .ok json ∧
        convert_from info.converter json info.converter.default_init = .done x) →
      ∀ o : O, ∃ o1, deserialize_from pre object o = .done o1 := by
  intro pre
  induction pre with
  | nil => intro _ o; exact ⟨o, rfl⟩
  | cons f rest ih =>
      intro hconv o
      have ih1 := ih (fun g hg => hconv g (List.mem_cons_of_mem _ hg))
      cases hro : f.readonly with
      | true =>
          obtain ⟨o1, hrun⟩ := ih1 o
          exact ⟨o1, by simp [deserialize_from, deserialize_field_from_readonly _ _ _ hro, hrun]⟩
      | false =>
          obtain ⟨json, x, hjson, hx⟩ := hconv f (List.mem_cons_self _ _) hro
          obtain ⟨o1, hrun⟩ := ih1 (f.set o x)
          exact ⟨o1, by
            simp [deserialize_from, deserialize_field_from_done object o f json x hro hjson hx,
              hrun]⟩

end mapper

end utility

/-! ## Claims -/

namespace utility

/-- C1. Primitive round trip: for `bool`, `int32_t`, `uint32_t`, `int64_t`,
`uint64_t` and `std::string`, for every value `v` and every prior content `v2`
of the target, `to_json(v)` returns a node `j` and `from_json(j, v2)` returns
normally with the target equal to `v`. -/
theorem primitive_round_trip :
    (∀ (u v v2 : Bool), ∃ j, convert (bool_converter u) v = .ok j ∧
        convert_from (bool_converter u) j v2 = .done v) ∧
    (∀ (u v v2 : int32_t), ∃ j, convert (int32_converter u) v = .ok j ∧
        convert_from (int32_converter u) j v2 = .done v) ∧
    (∀ (u v v2 : uint32_t), ∃ j, convert (uint32_converter u) v = .ok j ∧
        convert_from (uint32_converter u) j v2 = .done v) ∧
    (∀ (u v v2 : int64_t), ∃ j, convert (int64_converter u) v = .ok j ∧
        convert_from (int64_converter u) j v2 = .done v) ∧
    (∀ (u v v2 : uint64_t), ∃ j, convert (uint64_converter u) v = .ok j ∧
        convert_from (uint64_converter u) j v2 = .done v) ∧
    (∀ (v v2 : string_t), ∃ j, convert string_converter v = .ok j ∧
        convert_from string_converter j v2 = .done v) := by
  refine ⟨?_, ?_, ?_, ?_, ?_, ?_⟩
  · intro u v v2
    exact ⟨_, rfl, rfl⟩
  · intro u v v2
    refine ⟨_, rfl, ?_⟩
    simp [convert_from, int32_converter, parse, value.as_number, Except.map,
      number.to_int32_of_signed]
  · intro u v v2
    refine ⟨_, rfl, ?_⟩
    simp [convert_from, uint32_converter, parse, value.as_number, Except.map,
      number.to_uint32_of_unsigned]
  · intro u v v2
    refine ⟨_, rfl, ?_⟩
    simp [convert_from, int64_converter, parse, value.as_number, Except.map,
      number.to_int64_of_signed]
  · intro u v v2
    refine ⟨_, rfl, ?_⟩
    simp [convert_from, uint64_converter, parse, value.as_number, Except.map,
      number.to_uint64_of_unsigned]
  · intro v v2
    exact ⟨_, rfl, rfl⟩

/-- C2. Sequence serialization keeps length and order: when `to_json` of every
element of `xs` returns a node, `to_json(xs)` returns an `Array` with exactly
`xs.size()` elements whose `i`-th element is `to_json` of the `i`-th element of
`xs`; the empty vector gives the empty `Array`, and `[1, 2, 3]` of `int32_t`
gives the `Array` of the numbers `1, 2, 3`. -/
theorem vector_to_json_keeps_length_and_order :
    (∀ (T : Type) (c : value_converter T) (node : T → value) (xs : List T),
      (∀ x ∈ xs, c.to_json x = .ok (node x)) →
      ∃ elements, convert (vector_converter c) xs = .ok (value.Array elements) ∧
        elements.length = xs.length ∧
        ∀ (i : Nat) (x : T), xs[i]? = some x →
          ∃ j, elements[i]? = some j ∧ c.to_json x = .ok j) ∧
    (∀ (T : Type) (c : value_converter T),
      convert (vector_converter c) [] = .ok (value.Array [])) ∧
    (∀ u : int32_t,
      convert (vector_converter (int32_converter u))
          [⟨1, by decide⟩, ⟨2, by decide⟩, ⟨3, by decide⟩]
        = .ok (value.Array [value.Number (number.of_signed 1),
            value.Number (number.of_signed 2), value.Number (number.of_signed 3)])) := by
  refine ⟨?_, ?_, ?_⟩
  · intro T c node xs h
    refine ⟨xs.map node, vector_to_json_eq c node xs h, by simp, ?_⟩
    intro i x hx
    refine ⟨node x, by simp [hx], ?_⟩
    exact h x (List.getElem?_mem hx)
  · intro T c
    exact vector_to_json_eq c (fun _ => value.Null) [] (by simp)
  · intro u
    exact vector_to_json_eq (int32_converter u) (fun v => value.Number (number.of_signed v.val))
      _ (fun _ _ => rfl)

/-- C2 at the vector `[1, 2, 3]` of `int32_t`. -/
theorem vector_to_json_keeps_length_and_order_witness :
    ∃ elements,
      convert (vector_converter (int32_converter ⟨0, by decide⟩))
          [(⟨1, by decide⟩ : int32_t), ⟨2, by decide⟩, ⟨3, by decide⟩]
        = .ok (value.Array elements) ∧
      elements.length = 3 ∧
      ∀ (i : Nat) (x : int32_t),
        [(⟨1, by decide⟩ : int32_t), ⟨2, by decide⟩, ⟨3, by decide⟩][i]? = some x →
        ∃ j, elements[i]? = some j ∧ (int32_converter ⟨0, by decide⟩).to_json x = .ok j :=
  vector_to_json_keeps_length_and_order.1 int32_t (int32_converter ⟨0, by decide⟩)
    (fun v => value.Number (number.of_signed v.val)) _ (fun _ _ => rfl)

/-- C3. Sequence round trip with reset of the target: for every vector `xs` of
`int32_t` and every prior content `ys` of the target, `to_json(xs)` returns a
node from which `from_json` returns with the target equal to `xs`.  In general,
`from_json` of an `Array` whose elements all convert leaves in the target, in
place of its previous elements, one element per tree element in tree order:
the `i`-th is what `from_json` of the `i`-th tree element leaves in the
temporary, which holds `default_init` for the first element and, for a later
one, what `new (buf) T` makes of the element converted before it.  Whenever
`from_json` returns, the target has the length of the tree array.  With the
enum map `{A: "a", B: "b"}`, the array `["b", "zz", "a", "zz"]` gives
`[B, B, A, A]`. -/
theorem vector_round_trip_resets_target :
    (∀ (u : int32_t) (xs ys : List int32_t),
      ∃ j, convert (vector_converter (int32_converter u)) xs = .ok j ∧
        convert_from (vector_converter (int32_converter u)) j ys = .done xs) ∧
    (∀ (T : Type) (c : value_converter T) (elements : List value) (xs ys : List T),
      List.Forall₂ (fun j (p : T × T) => c.from_json j p.1 = .done p.2) elements
        (List.zip (c.default_init :: xs.map c.reinit) xs) →
      convert_from (vector_converter c) (value.Array elements) ys = .done xs ∧
        xs.length = elements.length) ∧
    (∀ (T : Type) (c : value_converter T) (elements : List value) (xs ys : List T),
      convert_from (vector_converter c) (value.Array elements) ys = .done xs →
      xs.length = elements.length) ∧
    (∀ (u : Letter) (ys : List Letter),
      convert_from (vector_converter (enum_converter letter_values u))
          (value.Array [value.String "b", value.String "zz", value.String "a",
            value.String "zz"]) ys
        = .done [Letter.B, Letter.B, Letter.A, Letter.A]) := by
  refine ⟨?_, ?_, ?_, ?_⟩
  · intro u xs ys
    refine ⟨_, vector_to_json_eq (int32_converter u)
      (fun v => value.Number (number.of_signed v.val)) xs (fun _ _ => rfl), ?_⟩
    have h := vector_from_json_eq_of_forall (int32_converter u)
      (fun e => match e with
        | value.Number n => n.to_int32
        | _ => u)
      (xs.map (fun v => value.Number (number.of_signed v.val))) ys
      (by
        intro e he t
        obtain ⟨v, _, rfl⟩ := List.mem_map.1 he
        rfl)
    simp only [List.map_map] at h
    have hid : xs.map ((fun e => match e with
        | value.Number n => n.to_int32
        | _ => u) ∘ fun v => value.Number (number.of_signed v.val)) = xs := by
      conv_rhs => rw [← List.map_id xs]
      apply List.map_congr_left
      intro v _
      simp [number.to_int32_of_signed]
    rw [hid] at h
    exact h
  · intro T c elements xs ys h
    have hlen : elements.length = xs.length := by
      have := List.Forall₂.length_eq h
      simpa using this
    refine ⟨?_, hlen.symm⟩
    simpa [convert_from, vector_converter, vector_from_json, value.as_array] using
      vector_from_json_loop_spec c elements xs c.default_init [] h
  · intro T c elements xs ys h
    have := vector_from_json_loop_length c elements c.default_init [] xs
      (by simpa [convert_from, vector_converter, vector_from_json, value.as_array] using h)
    simpa using this
  · intro u ys
    rfl

/-- C3 at the tree array `["b", "zz"]` read with the enum map `{A: "a", B: "b"}`
into a vector that held `[A]`: the second element matches no label, so the
temporary keeps the `B` converted before it. -/
theorem vector_round_trip_resets_target_witness :
    convert_from (vector_converter (enum_converter letter_values Letter.A))
        (value.Array [value.String "b", value.String "zz"]) [Letter.A]
      = .done [Letter.B, Letter.B] ∧
    [Letter.B, Letter.B].length = [value.String "b", value.String "zz"].length :=
  vector_round_trip_resets_target.2.1 Letter (enum_converter letter_values Letter.A)
    [value.String "b", value.String "zz"] [Letter.B, Letter.B] [Letter.A]
    (List.Forall₂.cons rfl (List.Forall₂.cons rfl List.Forall₂.nil))

/-- C4. Optional absent/present: `to_json` of an absent optional is `Null` and
`to_json` of a present `v` is `to_json(v)`; whatever the target optional held,
`from_json(Null, opt)` leaves it absent, and for every `int32_t n`
`from_json(Number(n), opt)` leaves it holding `n`. -/
theorem optional_absent_present :
    (∀ (T : Type) (c : value_converter T),
      convert (optional_converter c) none = .ok value.Null) ∧
    (∀ (T : Type) (c : value_converter T) (v : T),
      convert (optional_converter c) (some v) = convert c v) ∧
    (∀ (T : Type) (c : value_converter T) (opt : Option T),
      convert_from (optional_converter c) value.Null opt = .done none) ∧
    (∀ (u n : int32_t) (opt : Option int32_t),
      convert_from (optional_converter (int32_converter u))
          (value.Number (number.of_signed n.val)) opt = .done (some n)) := by
  refine ⟨fun _ _ => rfl, fun _ _ _ => rfl, fun _ _ _ => rfl, ?_⟩
  intro u n opt
  simp [convert_from, optional_converter, optional_from_json, value.is_null,
    int32_from_json_number, number.to_int32_of_signed]

/-- C5, the claim as stated fails: with the fields `"name"` (the data member
`name`) and `"shown"` (a get-only method returning `name`), `from_json` of
`{"name": "new", "shown": "other"}` into an owner named `"old"` returns
normally, and the get-only accessor, `"old"` before the call, gives `"new"`
after it. -/
theorem read_only_field_excluded_counterexample :
    account_shown_field ∈ account_shown_mapper.fields ∧
    account_shown_field.readonly = true ∧
    account_shown_mapper.from_json
        (value.Object [("name", value.String "new"), ("shown", value.String "other")])
        ⟨int32_zero, "old"⟩ = .done ⟨int32_zero, "new"⟩ ∧
    account_shown_field.get (⟨int32_zero, "old"⟩ : Account) = ("old" : string_t) ∧
    account_shown_field.get
        (account_shown_mapper.from_json
          (value.Object [("name", value.String "new"), ("shown", value.String "other")])
          ⟨int32_zero, "old"⟩).target = ("new" : string_t) := by
  refine ⟨?_, rfl, rfl, rfl, rfl⟩
  simp [account_shown_mapper]

/-- C5, amended. Read-only field exclusion: for a field `info` of a mapper
backed by a get-only accessor, (1) when the field names are pairwise distinct
and `convert` of every field of the owner returns a node, `to_json(owner)`
returns an object that has the key `info.name` with the member
`convert(info.get(owner))`; (2) the deserialisation step of `info` returns at
once with the owner untouched, whatever the node holds; and (3) when no `set`
of a writable field of the mapper changes what `info.get` returns,
`info.get(owner)` is the same after `from_json` as before it, for every node
and whether or not `from_json` returns normally. -/
theorem read_only_field_excluded {O : Type} (m : mapper O) (info : field_info O)
    (hmem : info ∈ m.fields) (hro : info.readonly = true) :
    (∀ o : O, (m.fields.map (fun g => g.name)).Nodup →
      (∀ g ∈ m.fields, ∃ j, convert g.converter (g.get o) = .ok j) →
      ∃ object j, m.to_json o = .ok object ∧
        convert info.converter (info.get o) = .ok j ∧
        object.has_field info.name = true ∧ object.at_key info.name = .ok j) ∧
    (∀ (node : value) (o : O), mapper.deserialize_field_from node o info = .done o) ∧
    ((∀ g ∈ m.fields, g.readonly = false → ∀ (o : O) (v : g.TField),
        info.get (g.set o v) = info.get o) →
      ∀ (node : value) (o : O), info.get (m.from_json node o).target = info.get o) := by
  refine ⟨?_, ?_, ?_⟩
  · intro o hnames hconv
    obtain ⟨ms, hrun, _, _, hval⟩ := mapper.serialize_to_spec o m.fields [] hconv
    obtain ⟨j, hj, hfind⟩ := hval hnames info hmem
    exact ⟨value.Object ms, j, hrun, hj, by simp [value.has_field, hfind],
      by simp [value.at_key, hfind]⟩
  · intro node o
    exact mapper.deserialize_field_from_readonly node o info hro
  · intro hframe node o
    exact mapper.deserialize_from_frame info.get m.fields node o hframe

/-- C5, amended, at the mapper of `Account` with the get-only field `"id"` and
the data member `"name"`: the three parts, and the facts that their hypotheses
hold for this mapper. -/
theorem read_only_field_excluded_witness :
    account_id_field ∈ account_mapper.fields ∧ account_id_field.readonly = true ∧
    ((∀ o : Account, (account_mapper.fields.map (fun g => g.name)).Nodup →
      (∀ g ∈ account_mapper.fields, ∃ j, convert g.converter (g.get o) = .ok j) →
      ∃ object j, account_mapper.to_json o = .ok object ∧
        convert account_id_field.converter (account_id_field.get o) = .ok j ∧
        object.has_field account_id_field.name = true ∧
        object.at_key account_id_field.name = .ok j) ∧
    (∀ (node : value) (o : Account),
      mapper.deserialize_field_from node o account_id_field = .done o) ∧
    ((∀ g ∈ account_mapper.fields, g.readonly = false → ∀ (o : Account) (v : g.TField),
        account_id_field.get (g.set o v) = account_id_field.get o) →
      ∀ (node : value) (o : Account),
        account_id_field.get (account_mapper.from_json node o).target
          = account_id_field.get o)) ∧
    (account_mapper.fields.map (fun g => g.name)).Nodup ∧
    (∀ (o : Account), ∀ g ∈ account_mapper.fields,
      ∃ j, convert g.converter (g.get o) = .ok j) ∧
    (∀ g ∈ account_mapper.fields, g.readonly = false → ∀ (o : Account) (v : g.TField),
        account_id_field.get (g.set o v) = account_id_field.get o) :=
  ⟨by simp [account_mapper], rfl,
    read_only_field_excluded account_mapper account_id_field (by simp [account_mapper]) rfl,
    by decide,
    by
      intro o g hg
      simp only [account_mapper, List.mem_cons, List.mem_singleton, List.not_mem_nil,
        or_false] at hg
      rcases hg with rfl | rfl <;> exact ⟨_, rfl⟩,
    by
      intro g hg hw o v
      simp only [account_mapper, List.mem_cons, List.mem_singleton, List.not_mem_nil,
        or_false] at hg
      rcases hg with rfl | rfl
      · cases hw
      · rfl⟩

/-- C6. Missing key is treated as `Null`: for every mapper, every key `k` and
every object without the key `k`, `from_json` of the object has the same
outcome, final owner and exception included, as `from_json` of the object after
`object[k] = Null`; and for the class with the one optional integer field
`"x"`, `from_json` of an object without the key `"x"` returns with `x` absent,
whatever it held. -/
theorem missing_key_is_null :
    (∀ (O : Type) (m : mapper O) (k : string_t) (members : List (string_t × value))
        (extended : value) (o : O),
      (value.Object members).has_field k = false →
      (value.Object members).assign_key k value.Null = .ok extended →
      m.from_json (value.Object members) o = m.from_json extended o) ∧
    (∀ (members : List (string_t × value)) (o : Settings),
      (value.Object members).has_field "x" = false →
      settings_mapper.from_json (value.Object members) o = .done ⟨none⟩) := by
  refine ⟨?_, ?_⟩
  · intro O m k members extended o hkey hext
    have hnone : value.find_member members k = none := by
      simpa [value.has_field] using hkey
    have hobj : extended = value.Object (value.set_member members k value.Null) := by
      simp only [value.assign_key] at hext
      exact (Except.ok.inj hext).symm
    subst hobj
    exact mapper.deserialize_from_extend members k hnone m.fields o
  · intro members o hkey
    simp [mapper.from_json, settings_mapper, mapper.deserialize_from,
      mapper.deserialize_field_from, field_info.readonly, getter_setter.writeable, hkey,
      convert_from, optional_converter, optional_from_json, value.null, value.is_null,
      field_info.set, getter_setter.set]

/-- C6 at the mapper of `Settings`, the object `{"y": true}` and an owner whose
`x` holds `0`. -/
theorem missing_key_is_null_witness :
    settings_mapper.from_json (value.Object [("y", value.Boolean true)]) ⟨some int32_zero⟩
      = settings_mapper.from_json
          (value.Object [("x", value.Null), ("y", value.Boolean true)])
          ⟨some int32_zero⟩ :=
  missing_key_is_null.1 Settings settings_mapper "x" [("y", value.Boolean true)]
    (value.Object [("x", value.Null), ("y", value.Boolean true)]) ⟨some int32_zero⟩
    rfl rfl

/-- C7. Enum miss-tolerance: for every declared map, every string `s` that is
the label of no entry and every initial value `e0` of the target,
`from_json(String(s), target)` returns normally and leaves the target equal to
`e0`. -/
theorem enum_from_json_miss {E : Type} [DecidableEq E] (values : List (E × string_t))
    (u e0 : E) (s : string_t) (hmiss : ∀ it ∈ values, it.2 ≠ s) :
    convert_from (enum_converter values u) (value.String s) e0 = .done e0 := by
  simp [convert_from, enum_converter, enum_from_json, value.as_string,
    enum_scan_miss s e0 values hmiss]

/-- C7 at the map `{A: "a", B: "b"}` and the input `String("c")`, for both
initial values of the target. -/
theorem enum_from_json_miss_witness :
    (∀ it ∈ letter_values, it.2 ≠ "c") ∧
    convert_from (enum_converter letter_values Letter.A) (value.String "c") Letter.A
      = .done Letter.A ∧
    convert_from (enum_converter letter_values Letter.A) (value.String "c") Letter.B
      = .done Letter.B :=
  ⟨by decide,
    enum_from_json_miss letter_values Letter.A Letter.A "c" (by decide),
    enum_from_json_miss letter_values Letter.A Letter.B "c" (by decide)⟩

/-- C8. Mapper serialization: for a mapper with pairwise distinct field names
and an owner for which `convert` of every field returns a node, `to_json(owner)`
returns an `Object` whose keys are exactly the declared field names, read-only
fields included, and whose member under each name is
`convert(info.get(owner))` for the field declared under that name. -/
theorem mapper_to_json_object {O : Type} (m : mapper O) (o : O)
    (hnames : (m.fields.map (fun info => info.name)).Nodup)
    (hconv : ∀ info ∈ m.fields, ∃ j, convert info.converter (info.get o) = .ok j) :
    ∃ object, m.to_json o = .ok object ∧
      (∃ members, object = value.Object members) ∧
      (∀ key, object.has_field key = true ↔ key ∈ m.fields.map (fun info => info.name)) ∧
      (∀ info ∈ m.fields, ∃ j, convert info.converter (info.get o) = .ok j ∧
        object.at_key info.name = .ok j) := by
  obtain ⟨ms, hrun, hother, hsome, hval⟩ := mapper.serialize_to_spec o m.fields [] hconv
  refine ⟨value.Object ms, hrun, ⟨ms, rfl⟩, ?_, ?_⟩
  · intro key
    constructor
    · intro hkey
      by_contra hnot
      have := hother key hnot
      simp [value.has_field, this, value.find_member] at hkey
    · intro hkey
      simpa [value.has_field] using hsome key hkey
  · intro info hinfo
    obtain ⟨j, hj, hfind⟩ := hval hnames info hinfo
    exact ⟨j, hj, by simp [value.at_key, hfind]⟩

/-- C8 at the mapper of `Account`, whose field `"id"` is read-only. -/
theorem mapper_to_json_object_witness :
    ∃ object, account_mapper.to_json ⟨int32_zero, "ann"⟩ = .ok object ∧
      (∃ members, object = value.Object members) ∧
      (∀ key, object.has_field key = true ↔
        key ∈ account_mapper.fields.map (fun info => info.name)) ∧
      (∀ info ∈ account_mapper.fields,
        ∃ j, convert info.converter (info.get ⟨int32_zero, "ann"⟩) = .ok j ∧
          object.at_key info.name = .ok j) :=
  mapper_to_json_object account_mapper ⟨int32_zero, "ann"⟩ (by decide)
    (by
      intro info hinfo
      simp only [account_mapper, List.mem_cons, List.mem_singleton, List.not_mem_nil,
        or_false] at hinfo
      rcases hinfo with rfl | rfl <;> exact ⟨_, rfl⟩)

/-- C10. Shape mismatch propagates: `from_json` into a `bool`, an integer or a
string target returns normally exactly when the node is a `Boolean`, a `Number`
or a `String` respectively; for a node of any other kind the
`json_exception` of the typed read (`as_bool`, `as_number`, `as_string`)
escapes unchanged and the target keeps the value it held on entry.  In
particular a `String` node read into an `int32_t` target raises
`"not a number"`. -/
theorem shape_mismatch_propagates :
    (∀ (u v : Bool) (j : value),
      ((convert_from (bool_converter u) j v).succeeded = true ↔ j.type = .Boolean) ∧
      (j.type ≠ .Boolean → j.as_bool = .error (.json_exception "not a boolean") ∧
        convert_from (bool_converter u) j v = .raised (.json_exception "not a boolean") v)) ∧
    (∀ (u v : int32_t) (j : value),
      ((convert_from (int32_converter u) j v).succeeded = true ↔ j.type = .Number) ∧
      (j.type ≠ .Number → j.as_number = .error (.json_exception "not a number") ∧
        convert_from (int32_converter u) j v = .raised (.json_exception "not a number") v)) ∧
    (∀ (u v : uint32_t) (j : value),
      ((convert_from (uint32_converter u) j v).succeeded = true ↔ j.type = .Number) ∧
      (j.type ≠ .Number → j.as_number = .error (.json_exception "not a number") ∧
        convert_from (uint32_converter u) j v = .raised (.json_exception "not a number") v)) ∧
    (∀ (u v : int64_t) (j : value),
      ((convert_from (int64_converter u) j v).succeeded = true ↔ j.type = .Number) ∧
      (j.type ≠ .Number → j.as_number = .error (.json_exception "not a number") ∧
        convert_from (int64_converter u) j v = .raised (.json_exception "not a number") v)) ∧
    (∀ (u v : uint64_t) (j : value),
      ((convert_from (uint64_converter u) j v).succeeded = true ↔ j.type = .Number) ∧
      (j.type ≠ .Number → j.as_number = .error (.json_exception "not a number") ∧
        convert_from (uint64_converter u) j v = .raised (.json_exception "not a number") v)) ∧
    (∀ (v : string_t) (j : value),
      ((convert_from string_converter j v).succeeded = true ↔ j.type = .String) ∧
      (j.type ≠ .String → j.as_string = .error (.json_exception "not a string") ∧
        convert_from string_converter j v = .raised (.json_exception "not a string") v)) ∧
    (∀ (u v : int32_t) (s : string_t),
      convert_from (int32_converter u) (value.String s) v
        = .raised (.json_exception "not a number") v) := by
  refine ⟨?_, ?_, ?_, ?_, ?_, ?_, ?_⟩
  · intro u v j
    cases j <;>
      simp [convert_from, bool_converter, parse, value.as_bool, value.type, Outcome.succeeded]
  · intro u v j
    cases j <;>
      simp [convert_from, int32_converter, parse, value.as_number, value.type,
        Outcome.succeeded, Except.map]
  · intro u v j
    cases j <;>
      simp [convert_from, uint32_converter, parse, value.as_number, value.type,
        Outcome.succeeded, Except.map]
  · intro u v j
    cases j <;>
      simp [convert_from, int64_converter, parse, value.as_number, value.type,
        Outcome.succeeded, Except.map]
  · intro u v j
    cases j <;>
      simp [convert_from, uint64_converter, parse, value.as_number, value.type,
        Outcome.succeeded, Except.map]
  · intro v j
    cases j <;>
      simp [convert_from, string_converter, parse, value.as_string, value.type,
        Outcome.succeeded]
  · intro u v s
    rfl

/-- C11. Integer narrowing wraps: for every `Number` node of integral type
holding an integer `n` representable in 64 bits, `from_json` returns normally
and leaves an `int32_t` target with the value of `[-2^31, 2^31)` congruent to
`n` modulo `2^32`, a `uint32_t` target with `n mod 2^32`, an `int64_t` target
with `n` when `n` is an `int64_t`, and a `uint64_t` target with `n` when `n` is
a `uint64_t`. -/
theorem integer_narrowing_wraps (x : number) (n : Int) (h : holds_integer x n) :
    (∀ u v : int32_t, ∃ r : int32_t,
      convert_from (int32_converter u) (value.Number x) v = .done r ∧
      -2 ^ 31 ≤ r.val ∧ r.val < 2 ^ 31 ∧ (r.val - n) % 2 ^ 32 = 0) ∧
    (∀ u v : uint32_t, ∃ r : uint32_t,
      convert_from (uint32_converter u) (value.Number x) v = .done r ∧
      r.val = n % 2 ^ 32) ∧
    (∀ u v : int64_t, -2 ^ 63 ≤ n ∧ n < 2 ^ 63 → ∃ r : int64_t,
      convert_from (int64_converter u) (value.Number x) v = .done r ∧ r.val = n) ∧
    (∀ u v : uint64_t, 0 ≤ n ∧ n < 2 ^ 64 → ∃ r : uint64_t,
      convert_from (uint64_converter u) (value.Number x) v = .done r ∧ r.val = n) := by
  cases x with
  | double_type d => exact absurd h (by simp [holds_integer])
  | signed_type i =>
      obtain ⟨rfl, h1, h2⟩ := h
      refine ⟨fun u v => ⟨_, rfl, ?_⟩, fun u v => ⟨_, rfl, ?_⟩, fun u v hr => ⟨_, rfl, ?_⟩,
        fun u v hr => ⟨_, rfl, ?_⟩⟩
      · simp only [number.to_int32, cast_int32, number.as_intval, wrap_signed]
        omega
      · simp only [number.to_uint32, cast_uint32, number.as_intval, wrap_signed, wrap_unsigned]
        omega
      · simp only [number.to_int64, cast_int64, number.as_intval, wrap_signed]
        omega
      · simp only [number.to_uint64, cast_uint64, number.as_intval, wrap_signed, wrap_unsigned]
        omega
  | unsigned_type i =>
      obtain ⟨rfl, h1, h2⟩ := h
      refine ⟨fun u v => ⟨_, rfl, ?_⟩, fun u v => ⟨_, rfl, ?_⟩, fun u v hr => ⟨_, rfl, ?_⟩,
        fun u v hr => ⟨_, rfl, ?_⟩⟩
      · simp only [number.to_int32, cast_int32, number.as_intval, wrap_signed]
        omega
      · simp only [number.to_uint32, cast_uint32, number.as_intval, wrap_signed, wrap_unsigned]
        omega
      · simp only [number.to_int64, cast_int64, number.as_intval, wrap_signed]
        omega
      · simp only [number.to_uint64, cast_uint64, number.as_intval, wrap_signed, wrap_unsigned]
        omega

/-- C11 at the node `Number(4294967301)`, that is `2^32 + 5`: the `int32_t`
and the `uint32_t` targets receive `5`. -/
theorem integer_narrowing_wraps_witness :
    holds_integer (.unsigned_type 4294967301) 4294967301 ∧
    ((∀ u v : int32_t, ∃ r : int32_t,
      convert_from (int32_converter u) (value.Number (.unsigned_type 4294967301)) v = .done r ∧
      -2 ^ 31 ≤ r.val ∧ r.val < 2 ^ 31 ∧ (r.val - 4294967301) % 2 ^ 32 = 0) ∧
    (∀ u v : uint32_t, ∃ r : uint32_t,
      convert_from (uint32_converter u) (value.Number (.unsigned_type 4294967301)) v = .done r ∧
      r.val = 4294967301 % 2 ^ 32) ∧
    (∀ u v : int64_t, -2 ^ 63 ≤ (4294967301 : Int) ∧ (4294967301 : Int) < 2 ^ 63 →
      ∃ r : int64_t,
        convert_from (int64_converter u) (value.Number (.unsigned_type 4294967301)) v = .done r ∧
        r.val = 4294967301) ∧
    (∀ u v : uint64_t, 0 ≤ (4294967301 : Int) ∧ (4294967301 : Int) < 2 ^ 64 →
      ∃ r : uint64_t,
        convert_from (uint64_converter u) (value.Number (.unsigned_type 4294967301)) v = .done r ∧
        r.val = 4294967301)) ∧
    convert_from (int32_converter int32_zero) (value.Number (.unsigned_type 4294967301))
      int32_zero = .done ⟨5, by decide⟩ :=
  ⟨⟨rfl, by decide, by decide⟩,
    integer_narrowing_wraps (.unsigned_type 4294967301) 4294967301
      ⟨rfl, by decide, by decide⟩,
    by decide⟩

/-- C12, the code at the failing input: `int16_t` is an arithmetic type, so
`value_converter<int16_t>` is the specialisation of lines 18-56, whose
`from_json` is the call `parse(json, value)`; no overload of `parse` is enabled
for `int16_t`, so the call has no viable function and `from_json` into an
`int16_t` target cannot be instantiated.  The same holds for `int8_t`, `uint8_t`
and `uint16_t`, while each of the 32-bit and 64-bit integer types has exactly
one overload, the read of its own width and signedness. -/
theorem small_integer_from_json_has_no_parse :
    (arithmetic_or_string_selected .int16_t = true ∧
      select_specialization .int16_t = .arithmetic_or_string ∧
      viable_parse .int16_t = []) ∧
    (arithmetic_or_string_selected .uint16_t = true ∧
      select_specialization .uint16_t = .arithmetic_or_string ∧
      viable_parse .uint16_t = []) ∧
    (arithmetic_or_string_selected .int8_t = true ∧
      select_specialization .int8_t = .arithmetic_or_string ∧
      viable_parse .int8_t = []) ∧
    (arithmetic_or_string_selected .uint8_t = true ∧
      select_specialization .uint8_t = .arithmetic_or_string ∧
      viable_parse .uint8_t = []) ∧
    viable_parse .int32_t = [.to_int32] ∧
    viable_parse .uint32_t = [.to_uint32] ∧
    viable_parse .int64_t = [.to_int64] ∧
    viable_parse .uint64_t = [.to_uint64] := by
  decide

/-- C13, the code at the failing input: `to_json` of a `std::array` of `int32_t`
returns the `Array` of its `N` elements in order, and calls only members that
`std::array` declares; the body of `from_json` calls `reserve`, `resize` and
`push_back` on its target, none of which `std::array` declares, so `from_json`
into a fixed-length target has no well-formed instantiation. -/
theorem array_from_json_calls_undeclared_members :
    (∀ (u : int32_t) (N : Nat) (a : std_array int32_t N),
      array_to_json (int32_converter u) N a
        = .ok (value.Array (a.val.map (fun v => value.Number (number.of_signed v.val)))) ∧
      (a.val.map (fun v => value.Number (number.of_signed v.val))).length = N) ∧
    array_to_json_calls.all array_declares = true ∧
    (∀ member ∈ array_from_json_calls, array_declares member = false) ∧
    vector_from_json_calls.all vector_declares = true := by
  refine ⟨?_, by decide, by decide, by decide⟩
  intro u N a
  obtain ⟨l, rfl⟩ := a
  exact ⟨vector_to_json_eq (int32_converter u)
    (fun v => value.Number (number.of_signed v.val)) l (fun _ _ => rfl), by simp⟩

/-- C14, the code at the failing input: for a node that is not null the call of
line 162 is a call of the pointer `from_json` itself on the same node, so no
depth of calls is enough for it to return, whatever the target holds; for
`Null` it returns with the target null.  `std::decay_t<T>` of `T = V*` is `V*`,
whose converter is the pointer specialisation again, no overload of `assign`
accepts the call of line 163, and `std::unique_ptr<V>` and `std::shared_ptr<V>`
are not pointers for `std::is_pointer`, so they get the primary template. -/
theorem pointer_from_json_never_returns :
    (∀ (P : Type) (null indeterminate : P) (assign : P → P → P) (fuel : Nat) (json : value)
        (v : P),
      json.is_null = false → pointer_from_json null indeterminate assign fuel json v = none) ∧
    (∀ (P : Type) (null indeterminate : P) (assign : P → P → P) (fuel : Nat) (v : P),
      pointer_from_json null indeterminate assign (fuel + 1) value.Null v
        = some (.done null)) ∧
    (∀ V : cpp_type,
      pointer_from_json_callee (.raw_pointer V) = .raw_pointer V ∧
      select_specialization (pointer_from_json_callee (.raw_pointer V)) = .pointer) ∧
    (∀ V : cpp_type, viable_assign V = []) ∧
    (∀ V : cpp_type,
      select_specialization (.unique_ptr V) = .primary ∧
      select_specialization (.shared_ptr V) = .primary) := by
  refine ⟨?_, ?_, ?_, ?_, ?_⟩
  · intro P null indeterminate assign fuel
    induction fuel with
    | zero => intro json v _; rfl
    | succ fuel ih =>
        intro json v hjson
        simp [pointer_from_json, hjson, ih json indeterminate hjson]
  · intro P null indeterminate assign fuel v
    simp [pointer_from_json, value.is_null]
  · intro V
    exact ⟨rfl, rfl⟩
  · intro V
    have hne : cpp_type.raw_pointer V ≠ V := by
      intro h
      have := congrArg sizeOf h
      simp at this
    simp [viable_assign, hne]
  · intro V
    exact ⟨rfl, rfl⟩

/-- C15. Enum serialization and label miss: for a value `e` with an entry in the
declared map, `to_json(e)` returns `String` of a label that the map holds for
`e`, the label of its entry when the keys are distinct, as they are in a
`std::unordered_map`; for a value with no entry, `to_json` raises
`std::out_of_range` and returns no node.  Hence `to_json` raises exactly when
the value is missing from the map. -/
theorem enum_to_json_label_or_raise {E : Type} [DecidableEq E]
    (values : List (E × string_t)) (u e : E) :
    ((∃ it ∈ values, it.1 = e) →
      ∃ label, (e, label) ∈ values ∧
        convert (enum_converter values u) e = .ok (value.String label)) ∧
    (∀ label, (values.map Prod.fst).Nodup → (e, label) ∈ values →
      convert (enum_converter values u) e = .ok (value.String label)) ∧
    ((∀ it ∈ values, it.1 ≠ e) →
      convert (enum_converter values u) e = .error .out_of_range) ∧
    ((∃ x, convert (enum_converter values u) e = .error x) ↔ ∀ it ∈ values, it.1 ≠ e) := by
  have hmiss : (∀ it ∈ values, it.1 ≠ e) →
      convert (enum_converter values u) e = .error .out_of_range := by
    intro h
    simp [convert, enum_converter, enum_to_json, unordered_map_at_miss e values h]
  have hfound : (∃ it ∈ values, it.1 = e) →
      ∃ label, (e, label) ∈ values ∧
        convert (enum_converter values u) e = .ok (value.String label) := by
    intro h
    obtain ⟨label, hmem, hat⟩ := unordered_map_at_found e values h
    exact ⟨label, hmem, by simp [convert, enum_converter, enum_to_json, hat]⟩
  refine ⟨hfound, ?_, hmiss, ?_⟩
  · intro label hnodup hmem
    simp [convert, enum_converter, enum_to_json,
      unordered_map_at_entry e label values hnodup hmem]
  · constructor
    · rintro ⟨x, hx⟩ it hit he
      obtain ⟨label, _, hok⟩ := hfound ⟨it, hit, he⟩
      rw [hok] at hx
      cases hx
    · intro h
      exact ⟨_, hmiss h⟩

/-- C15 at the map that holds `Letter::A` only, labelled `"a"`: `to_json` of
`A` returns `String("a")` and `to_json` of `B` raises. -/
theorem enum_to_json_label_or_raise_witness :
    ([(Letter.A, ("a" : string_t))].map Prod.fst).Nodup ∧
    (Letter.A, ("a" : string_t)) ∈ [(Letter.A, ("a" : string_t))] ∧
    convert (enum_converter [(Letter.A, "a")] Letter.A) Letter.A = .ok (value.String "a") ∧
    (∀ it ∈ [(Letter.A, ("a" : string_t))], it.1 ≠ Letter.B) ∧
    convert (enum_converter [(Letter.A, "a")] Letter.A) Letter.B = .error .out_of_range :=
  ⟨by decide, by decide,
    (enum_to_json_label_or_raise [(Letter.A, "a")] Letter.A Letter.A).2.1 "a"
      (by decide) (by decide),
    by decide,
    (enum_to_json_label_or_raise [(Letter.A, "a")] Letter.A Letter.B).2.2.1 (by decide)⟩

/-- C16, the claim as stated fails: with the fields `"name"` (data member),
`"id"` (data member) and `"shown"` (a get-only method returning `name`), in this
order, `from_json` of `{"id": "x", "name": "new"}` into an owner named `"old"`
fails while converting the second field, after the first converted; the third
field, which comes after the failing one, gave `"old"` before the call and
gives `"new"` on exit. -/
theorem no_rollback_on_failure_counterexample :
    account_view_mapper.fields
      = [account_name_field] ++ account_id_member_field :: [account_shown_field] ∧
    (account_view_mapper.fields.map (fun info => info.name)).Nodup ∧
    convert_from account_name_field.converter (value.String "new")
      account_name_field.converter.default_init = .done ("new" : string_t) ∧
    convert_from account_id_member_field.converter (value.String "x")
      account_id_member_field.converter.default_init
      = .raised (.json_exception "not a number") int32_zero ∧
    account_view_mapper.from_json
        (value.Object [("id", value.String "x"), ("name", value.String "new")])
        ⟨int32_zero, "old"⟩
      = .raised (.json_exception "not a number") ⟨int32_zero, "new"⟩ ∧
    account_shown_field.get (⟨int32_zero, "old"⟩ : Account) = ("old" : string_t) ∧
    account_shown_field.get
        (account_view_mapper.from_json
          (value.Object [("id", value.String "x"), ("name", value.String "new")])
          ⟨int32_zero, "old"⟩).target = ("new" : string_t) := by
  refine ⟨rfl, by decide, rfl, rfl, rfl, rfl, rfl⟩

/-- C16, amended. No rollback on failure, fields processed in declaration
order: let the fields of a mapper be `pre`, then `fk`, then `post`.  If the
writable fields of `pre` convert and the conversion for the writable field `fk`
raises `e`, then `from_json` raises `e` and leaves the owner exactly as the
fields of `pre` wrote it, in their order; `fk` and the fields of `post` write
nothing.  When moreover the names are pairwise distinct and the accessors
behave as distinct fields (`get` after `set` of a writable field returns the
value set, and `set` of one field leaves what `get` of another returns), on
exit every writable field of `pre` holds the value converted from its node (the
member under its name, or `Null` when the key is missing), while `fk`, every
field of `post` and every read-only field of `pre` hold what they held before
the call. -/
theorem no_rollback_on_failure {O : Type} (m : mapper O) (pre post : List (field_info O))
    (fk : field_info O) (node : value) (o : O) (json : value) (e : Exn) (t : fk.TField)
    (hfields : m.fields = pre ++ fk :: post)
    (hpre : ∀ info ∈ pre, info.readonly = false → ∃ json1 x,
      mapper.field_json node info.name = .ok json1 ∧
      convert_from info.converter json1 info.converter.default_init = .done x)
    (hk : fk.readonly = false)
    (hjson : mapper.field_json node fk.name = .ok json)
    (hfail : convert_from fk.converter json fk.converter.default_init = .raised e t) :
    ∃ o1, mapper.deserialize_from pre node o = .done o1 ∧
      m.from_json node o = .raised e o1 ∧
      ((m.fields.map (fun info => info.name)).Nodup →
        (∀ info ∈ m.fields, info.readonly = false →
          ∀ (o2 : O) (v : info.TField), info.get (info.set o2 v) = v) →
        (∀ info ∈ m.fields, ∀ other ∈ m.fields, info.name ≠ other.name →
          ∀ (o2 : O) (v : info.TField), other.get (info.set o2 v) = other.get o2) →
        (∀ info ∈ pre, info.readonly = false → ∃ json1,
          mapper.field_json node info.name = .ok json1 ∧
          convert_from info.converter json1 info.converter.default_init
            = .done (info.get o1)) ∧
        fk.get o1 = fk.get o ∧
        (∀ info ∈ post, info.get o1 = info.get o) ∧
        (∀ info ∈ pre, info.readonly = true → info.get o1 = info.get o)) := by
  obtain ⟨o1, hrun⟩ := mapper.deserialize_from_done node pre hpre o
  have hstep := mapper.deserialize_field_from_raised node o1 fk json e t hk hjson hfail
  refine ⟨o1, hrun, ?_, ?_⟩
  · simp [mapper.from_json, hfields, mapper.deserialize_from_append, hrun,
      mapper.deserialize_from, hstep]
  intro hnames hget_set hother
  have hpre_mem : ∀ info ∈ pre, info ∈ m.fields := by
    intro info hinfo
    rw [hfields]
    exact List.mem_append_left _ hinfo
  have hrest_mem : ∀ info ∈ fk :: post, info ∈ m.fields := by
    intro info hinfo
    rw [hfields]
    exact List.mem_append_right _ hinfo
  have hnames1 : (pre.map (fun info => info.name) ++
      (fk :: post).map (fun info => info.name)).Nodup := by
    rw [← List.map_append, ← hfields]
    exact hnames
  obtain ⟨o2, hrun2, hall⟩ := mapper.deserialize_from_prefix node pre
    (List.Nodup.of_append_left hnames1)
    (fun info hinfo => hget_set info (hpre_mem info hinfo))
    (fun info hinfo other hother1 =>
      hother info (hpre_mem info hinfo) other (hpre_mem other hother1))
    hpre o
  have ho : o2 = o1 := by
    rw [hrun] at hrun2
    exact (Outcome.done.inj hrun2).symm
  subst ho
  have hframe : ∀ other ∈ m.fields,
      (∀ g ∈ pre, g.readonly = false → g.name ≠ other.name) → other.get o2 = other.get o := by
    intro other hmem hne
    have h := mapper.deserialize_from_frame other.get pre node o
      (fun g hg hw o3 v => hother g (hpre_mem g hg) other hmem (hne g hg hw) o3 v)
    rw [hrun] at h
    exact h
  have hdisjoint : ∀ g ∈ pre, ∀ other ∈ fk :: post, g.name ≠ other.name := by
    intro g hg other hother1 heq
    exact (List.disjoint_of_nodup_append hnames1)
      (List.mem_map_of_mem (fun info => info.name) hg)
      (heq ▸ List.mem_map_of_mem (fun info => info.name) hother1)
  refine ⟨hall, ?_, ?_, ?_⟩
  · exact hframe fk (hrest_mem fk (List.mem_cons_self _ _))
      (fun g hg _ => hdisjoint g hg fk (List.mem_cons_self _ _))
  · intro info hinfo
    exact hframe info (hrest_mem info (List.mem_cons_of_mem _ hinfo))
      (fun g hg _ => hdisjoint g hg info (List.mem_cons_of_mem _ hinfo))
  · intro info hinfo hro
    refine hframe info (hpre_mem info hinfo) ?_
    intro g hg hw heq
    have hsame : g = info :=
      List.inj_on_of_nodup_map (List.Nodup.of_append_left hnames1) hg hinfo heq
    rw [hsame, hro] at hw
    cases hw

/-- C16, amended, at the mapper of `Item`, fields `"id"` then `"label"`, and an
owner with `id` zero and `label` `"old"`: from `{"id": 7, "label": 5}` the
second field raises after `id` was set to `7`, and the owner is left with `id`
`7` and `label` `"old"`. -/
theorem no_rollback_on_failure_witness :
    (∃ o1,
      mapper.deserialize_from [item_id_field]
        (value.Object [("id", value.Number (.unsigned_type 7)),
          ("label", value.Number (.unsigned_type 5))]) ⟨int32_zero, "old"⟩ = .done o1 ∧
      item_mapper.from_json
        (value.Object [("id", value.Number (.unsigned_type 7)),
          ("label", value.Number (.unsigned_type 5))]) ⟨int32_zero, "old"⟩
        = .raised (.json_exception "not a string") o1 ∧
      (∀ info ∈ [item_id_field], info.readonly = false → ∃ json1,
        mapper.field_json
          (value.Object [("id", value.Number (.unsigned_type 7)),
            ("label", value.Number (.unsigned_type 5))]) info.name = .ok json1 ∧
        convert_from info.converter json1 info.converter.default_init
          = .done (info.get o1)) ∧
      item_label_field.get o1 = item_label_field.get ⟨int32_zero, "old"⟩ ∧
      (∀ info ∈ ([] : List (field_info Item)),
        info.get o1 = info.get ⟨int32_zero, "old"⟩) ∧
      (∀ info ∈ [item_id_field], info.readonly = true →
        info.get o1 = info.get ⟨int32_zero, "old"⟩)) ∧
    item_mapper.from_json
        (value.Object [("id", value.Number (.unsigned_type 7)),
          ("label", value.Number (.unsigned_type 5))]) ⟨int32_zero, "old"⟩
      = .raised (.json_exception "not a string") ⟨⟨7, by decide⟩, "old"⟩ := by
  refine ⟨?_, by decide⟩
  obtain ⟨o1, hrun, hraised, hlaws⟩ :=
    no_rollback_on_failure item_mapper [item_id_field] [] item_label_field
      (value.Object [("id", value.Number (.unsigned_type 7)),
        ("label", value.Number (.unsigned_type 5))])
      ⟨int32_zero, "old"⟩ (value.Number (.unsigned_type 5))
      (.json_exception "not a string") ""
      rfl
      (by
        intro info hinfo _
        rw [List.mem_singleton] at hinfo
        subst hinfo
        refine ⟨value.Number (.unsigned_type 7), ⟨7, by decide⟩, rfl, ?_⟩
        show convert_from (int32_converter int32_zero) (value.Number (.unsigned_type 7))
          int32_zero = .done ⟨7, by decide⟩
        decide)
      rfl rfl rfl
  exact ⟨o1, hrun, hraised,
    hlaws (by decide) (fun info hinfo _ => item_mapper_plain.get_set info hinfo)
      item_mapper_plain.get_set_other⟩

/-- C18. Optional round trip needs a non-`Null` payload encoding: when the
converter of `T` round-trips and its `to_json` never returns `Null`, the
converter of `boost::optional<T>` round-trips, for every optional and every
prior target.  Without the condition the round trip is lost: for an optional of
optional of `int32_t`, the value present(absent) serializes to `Null`, and
`Null` deserializes to absent. -/
theorem optional_round_trip_needs_non_null :
    (∀ (T : Type) (c : value_converter T), round_trips c →
      (∀ v : T, c.to_json v ≠ .ok value.Null) →
      ∀ o o2 : Option T, ∃ j, convert (optional_converter c) o = .ok j ∧
        convert_from (optional_converter c) j o2 = .done o) ∧
    (∀ (u : int32_t) (o2 : Option (Option int32_t)),
      convert (optional_converter (optional_converter (int32_converter u))) (some none)
        = .ok value.Null ∧
      convert_from (optional_converter (optional_converter (int32_converter u)))
        value.Null o2 = .done none ∧
      (none : Option (Option int32_t)) ≠ some none) := by
  refine ⟨?_, ?_⟩
  · intro T c hc hnull o o2
    cases o with
    | none => exact ⟨value.Null, rfl, rfl⟩
    | some v =>
        obtain ⟨j, hj, hback⟩ := hc v c.default_init
        refine ⟨j, hj, ?_⟩
        have hnn : j.is_null = false := by
          cases j with
          | Null => exact absurd hj (hnull v)
          | _ => rfl
        simp [convert_from, optional_converter, optional_from_json, hnn, hback]
  · intro u o2
    exact ⟨rfl, rfl, by simp⟩

/-- C18 at `boost::optional<int32_t>`: the round trip of present(0) into an
absent target. -/
theorem optional_round_trip_needs_non_null_witness :
    round_trips (int32_converter int32_zero) ∧
    (∀ v : int32_t, (int32_converter int32_zero).to_json v ≠ .ok value.Null) ∧
    ∃ j, convert (optional_converter (int32_converter int32_zero)) (some int32_zero) = .ok j ∧
      convert_from (optional_converter (int32_converter int32_zero)) j none
        = .done (some int32_zero) :=
  ⟨int32_converter_round_trips int32_zero,
    fun v h => by simp [int32_converter] at h,
    optional_round_trip_needs_non_null.1 int32_t (int32_converter int32_zero)
      (int32_converter_round_trips int32_zero)
      (fun v h => by simp [int32_converter] at h) (some int32_zero) none⟩

/-- C19. Enum round trip under distinct labels: for a declared map whose labels
are pairwise distinct, every value `e` with an entry and every prior target
`x`, `to_json(e)` returns a node from which `from_json` returns with the target
equal to `e`.  For any map, `from_json` of a label that some entry carries
leaves the target equal to the value of an entry carrying it; with the entries
`A: "a"` and `B: "a"` iterated in this order, the round trip of `B` gives `A`. -/
theorem enum_round_trip_distinct_labels :
    (∀ (E : Type) [DecidableEq E] (values : List (E × string_t)) (u e x : E),
      (values.map Prod.snd).Nodup → (∃ it ∈ values, it.1 = e) →
      ∃ j, convert (enum_converter values u) e = .ok j ∧
        convert_from (enum_converter values u) j x = .done e) ∧
    (∀ (E : Type) [DecidableEq E] (values : List (E × string_t)) (u x : E) (s : string_t),
      (∃ it ∈ values, it.2 = s) →
      ∃ it ∈ values, it.2 = s ∧
        convert_from (enum_converter values u) (value.String s) x = .done it.1) ∧
    (∀ x : Letter,
      convert (enum_converter [(Letter.A, "a"), (Letter.B, "a")] Letter.A) Letter.B
        = .ok (value.String "a") ∧
      convert_from (enum_converter [(Letter.A, "a"), (Letter.B, "a")] Letter.A)
        (value.String "a") x = .done Letter.A) := by
  refine ⟨?_, ?_, ?_⟩
  · intro E _ values u e x hlabels he
    obtain ⟨label, hmem, hat⟩ := unordered_map_at_found e values he
    refine ⟨value.String label, by simp [convert, enum_converter, enum_to_json, hat], ?_⟩
    simp [convert_from, enum_converter, enum_from_json, value.as_string,
      enum_scan_entry e label x values hlabels hmem]
  · intro E _ values u x s hs
    obtain ⟨it, hmem, hl, hscan⟩ := enum_scan_found s x values hs
    exact ⟨it, hmem, hl, by
      simp [convert_from, enum_converter, enum_from_json, value.as_string, hscan]⟩
  · intro x
    exact ⟨rfl, rfl⟩

/-- C19 at the map `{A: "a", B: "b"}`: the round trip of `B` into a target that
held `A`. -/
theorem enum_round_trip_distinct_labels_witness :
    (letter_values.map Prod.snd).Nodup ∧ (∃ it ∈ letter_values, it.1 = Letter.B) ∧
    ∃ j, convert (enum_converter letter_values Letter.A) Letter.B = .ok j ∧
      convert_from (enum_converter letter_values Letter.A) j Letter.A = .done Letter.B :=
  ⟨by decide, ⟨(Letter.B, "b"), by decide, rfl⟩,
    enum_round_trip_distinct_labels.1 Letter letter_values Letter.A Letter.B Letter.A
      (by decide) ⟨(Letter.B, "b"), by decide, rfl⟩⟩

/-- C20. Sequence deserialization is not atomic on a shape mismatch: for every
node that is not an `Array` and every prior content of the target, `from_json`
into a vector raises the `json_exception` of `as_array` and leaves the target
empty.  When the elements before index `k` of an `Array` convert to `xs`, each
into the temporary as the loop finds it (`default_init` for the first element,
then what `new (buf) T` makes of the element converted before), and the element
at index `k` raises, `from_json` raises that exception and the target holds
exactly the `k` elements `xs`, in order; with the enum map `{A: "a", B: "b"}`
the array `["b", "zz", 5]` leaves `[B, B]`.  For a writable mapper field of
vector type whose key is missing, the step of the field raises on `Null` and
the owner is left as it was. -/
theorem vector_from_json_not_atomic :
    (∀ (T : Type) (c : value_converter T) (json : value) (ys : List T),
      json.type ≠ .Array →
      convert_from (vector_converter c) json ys
        = .raised (.json_exception "not an array") []) ∧
    (∀ (T : Type) (c : value_converter T) (ys : List T),
      convert_from (vector_converter c) value.Null ys
        = .raised (.json_exception "not an array") []) ∧
    (∀ (T : Type) (c : value_converter T) (pre : List value) (bad : value)
        (post : List value) (xs ys : List T) (e : Exn) (t : T),
      List.Forall₂ (fun j (p : T × T) => c.from_json j p.1 = .done p.2) pre
        (List.zip (c.default_init :: xs.map c.reinit) xs) →
      c.from_json bad (xs.foldl (fun _ x => c.reinit x) c.default_init) = .raised e t →
      convert_from (vector_converter c) (value.Array (pre ++ bad :: post)) ys
          = .raised e xs ∧
        xs.length = pre.length) ∧
    (∀ (u : Letter) (ys : List Letter),
      convert_from (vector_converter (enum_converter letter_values u))
          (value.Array [value.String "b", value.String "zz",
            value.Number (.unsigned_type 5)]) ys
        = .raised (.json_exception "not a string") [Letter.B, Letter.B]) ∧
    (∀ (O T : Type) (c : value_converter T) (name : string_t)
        (accessor : getter_setter O (List T)) (object : value) (o : O),
      accessor.writeable = true → object.has_field name = false →
      mapper.deserialize_field_from object o ⟨List T, name, accessor, vector_converter c⟩
        = .raised (.json_exception "not an array") o) := by
  refine ⟨?_, ?_, ?_, ?_, ?_⟩
  · intro T c json ys hjson
    cases json <;>
      simp_all [convert_from, vector_converter, vector_from_json, value.as_array, value.type]
  · intro T c ys
    rfl
  · intro T c pre bad post xs ys e t hpre hbad
    have hlen : pre.length = xs.length := by
      have := List.Forall₂.length_eq hpre
      simpa using this
    refine ⟨?_, hlen.symm⟩
    have h := vector_from_json_loop_raise c bad post e pre xs c.default_init [] t hpre hbad
    simpa [convert_from, vector_converter, vector_from_json, value.as_array] using h
  · intro u ys
    rfl
  · intro O T c name accessor object o hw hkey
    simp [mapper.deserialize_field_from, field_info.readonly, hw, hkey, convert_from,
      vector_converter, vector_from_json, value.as_array, value.null]

/-- C20 at the array `["b", "zz", 5, "a"]` read with the enum map
`{A: "a", B: "b"}` into a vector that held `[A, A, A]`: the second element
matches no label and keeps the `B` before it, the exception of the third
element escapes, and the target holds the two elements `[B, B]`. -/
theorem vector_from_json_not_atomic_witness :
    convert_from (vector_converter (enum_converter letter_values Letter.A))
        (value.Array ([value.String "b", value.String "zz"] ++
          value.Number (.unsigned_type 5) :: [value.String "a"]))
        [Letter.A, Letter.A, Letter.A]
      = .raised (.json_exception "not a string") [Letter.B, Letter.B] ∧
    [Letter.B, Letter.B].length = [value.String "b", value.String "zz"].length :=
  vector_from_json_not_atomic.2.2.1 Letter (enum_converter letter_values Letter.A)
    [value.String "b", value.String "zz"] (value.Number (.unsigned_type 5))
    [value.String "a"] [Letter.B, Letter.B] [Letter.A, Letter.A, Letter.A]
    (.json_exception "not a string") Letter.B
    (List.Forall₂.cons rfl (List.Forall₂.cons rfl List.Forall₂.nil)) rfl

end utility

end web.json
